import Mathlib

/-!
# web-terminal-ttyd, server side: a verification model

Shallow embedding of the Go sources

* `apps/server/internal/ws/handler.go`     (`ws.Handler`, `initMsg`),
* `apps/server/internal/ssh/client.go`     (`Dial`, `SSHClient.Shell`),
* `apps/server/internal/upload/handler.go` (`upload.Handler`).

Calls into the outside world (websocket, x/crypto/ssh, the file system) are
recorded as events; what such a call returns is taken from a `World`, so every
statement quantifies over everything the environment may answer.  The two
goroutines of `ws.Handler` are kept as two event lists (`Run.main`,
`Run.inbound`); statements about the global order quantify over every
interleaving of the two.

Go strings and byte slices are lists of byte values (`Bytes`).
-/

namespace WebTerminal

/-- Go `[]byte` and `string`: a sequence of byte values. -/
abbrev Bytes := List Nat

/-- Bytes of an ASCII string literal. -/
def ascii (s : String) : Bytes := s.toList.map Char.toNat

/-! ## encoding/json, as far as the handlers use it

`json.Unmarshal(data, &v)` for `v` a struct whose fields are `string` or `int`.
The library is not part of the repository; this is a model of its documented
behaviour: the whole input is validated as one JSON value first, then an object
is decoded member by member (keys matched exactly, else case-insensitively,
later duplicates overwrite, unknown keys skipped, `null` leaves a field
unchanged, a value of the wrong JSON type is an `UnmarshalTypeError`).  -/

namespace Json

/-- Parsed JSON value; strings are already unquoted, numbers keep their literal. -/
inductive JVal where
  | null
  | bool (b : Bool)
  | num (lit : Bytes)
  | str (s : Bytes)
  | arr (xs : List JVal)
  | obj (kvs : List (Bytes × JVal))

/-- JSON insignificant whitespace: space, tab, CR, LF. -/
def isSpace (c : Nat) : Bool := c == 32 || c == 9 || c == 13 || c == 10

def isDigit (c : Nat) : Bool := 48 ≤ c && c ≤ 57

def skipWs : Bytes → Bytes
  | [] => []
  | c :: t => if isSpace c then skipWs t else c :: t

/-- Value of a hexadecimal digit. -/
def hexVal (c : Nat) : Option Nat :=
  if 48 ≤ c && c ≤ 57 then some (c - 48)
  else if 97 ≤ c && c ≤ 102 then some (c - 87)
  else if 65 ≤ c && c ≤ 70 then some (c - 55)
  else none

/-- One unit of a string literal body: a literal byte, a decoded simple
escape, or a `\uXXXX` escape. -/
inductive StrUnit where
  | lit (b : Nat)
  | esc (b : Nat)
  | u16 (code : Nat)

/-- Byte denoted by the character after a backslash (`getu4` aside). -/
def simpleEscape (c : Nat) : Option Nat :=
  if c == 34 then some 34          -- \"
  else if c == 92 then some 92     -- \\
  else if c == 47 then some 47     -- \/
  else if c == 98 then some 8      -- \b
  else if c == 102 then some 12    -- \f
  else if c == 110 then some 10    -- \n
  else if c == 114 then some 13    -- \r
  else if c == 116 then some 9     -- \t
  else none

/-- Scans a string literal after its opening quote up to the closing quote;
control characters and malformed escapes are syntax errors. -/
def scanString : Bytes → Option (List StrUnit × Bytes)
  | [] => none
  | 34 :: t => some ([], t)
  | 92 :: 117 :: a :: b :: c :: d :: t =>
    match hexVal a, hexVal b, hexVal c, hexVal d with
    | some x, some y, some z, some w =>
      (scanString t).map fun p => (StrUnit.u16 (((x * 16 + y) * 16 + z) * 16 + w) :: p.1, p.2)
    | _, _, _, _ => none
  | 92 :: e :: t =>
    match simpleEscape e with
    | some b => (scanString t).map fun p => (StrUnit.esc b :: p.1, p.2)
    | none => none
  | 92 :: [] => none
  | c :: t =>
    if c < 32 then none
    else (scanString t).map fun p => (StrUnit.lit c :: p.1, p.2)

def isCont (b : Nat) : Bool := 128 ≤ b && b ≤ 191

/-- Length of the well-formed UTF-8 sequence at the head of the bytes
(`utf8.DecodeRune`), `0` when the head is not the start of one. -/
def utf8Len : Bytes → Nat
  | [] => 0
  | b0 :: t =>
    if b0 < 128 then 1
    else if 194 ≤ b0 && b0 ≤ 223 then
      match t with
      | b1 :: _ => if isCont b1 then 2 else 0
      | _ => 0
    else if 224 ≤ b0 && b0 ≤ 239 then
      match t with
      | b1 :: b2 :: _ =>
        let lo := if b0 == 224 then 160 else 128
        let hi := if b0 == 237 then 159 else 191
        if lo ≤ b1 && b1 ≤ hi && isCont b2 then 3 else 0
      | _ => 0
    else if 240 ≤ b0 && b0 ≤ 244 then
      match t with
      | b1 :: b2 :: b3 :: _ =>
        let lo := if b0 == 240 then 144 else 128
        let hi := if b0 == 244 then 143 else 191
        if lo ≤ b1 && b1 ≤ hi && isCont b2 && isCont b3 then 4 else 0
      | _ => 0
    else 0

/-- UTF-8 encoding of U+FFFD, the replacement character. -/
def replacement : Bytes := [239, 191, 189]

/-- Go `utf8.EncodeRune`: surrogates and values above U+10FFFF become U+FFFD. -/
def encodeRune (r : Nat) : Bytes :=
  if r < 128 then [r]
  else if r < 2048 then [192 + r / 64, 128 + r % 64]
  else if (55296 ≤ r && r ≤ 57343) || 1114111 < r then replacement
  else if r < 65536 then [224 + r / 4096, 128 + r / 64 % 64, 128 + r % 64]
  else [240 + r / 262144, 128 + r / 4096 % 64, 128 + r / 64 % 64, 128 + r % 64]

/-- Leading literal bytes of a unit list (look-ahead of `utf8.DecodeRune`). -/
def litPrefix : List StrUnit → Bytes
  | StrUnit.lit b :: t => b :: litPrefix t
  | _ => []

/-- Code unit of a `\uXXXX` escape at the head of a unit list, if any. -/
def headU16 : List StrUnit → Option Nat
  | StrUnit.u16 d :: _ => some d
  | _ => none

/-- Go `unquoteBytes` on a scanned body: escapes are replaced, surrogate pairs
combined, ill-formed UTF-8 coerced to U+FFFD.  `pending` counts continuation
bytes of an already validated sequence that are copied unchanged; `skip` says
that the head unit was consumed as the low half of a surrogate pair. -/
def unquoteUnits : List StrUnit → Nat → Bool → Bytes
  | [], _, _ => []
  | _ :: t, _, true => unquoteUnits t 0 false
  | StrUnit.lit b :: t, k + 1, false => b :: unquoteUnits t k false
  | StrUnit.lit b :: t, 0, false =>
    match utf8Len (b :: litPrefix t) with
    | 0 => replacement ++ unquoteUnits t 0 false
    | n + 1 => b :: unquoteUnits t n false
  | StrUnit.esc b :: t, _, false => b :: unquoteUnits t 0 false
  | StrUnit.u16 c :: t, _, false =>
    if 55296 ≤ c && c ≤ 57343 then
      match headU16 t with
      | some d =>
        if c ≤ 56319 && 56320 ≤ d && d ≤ 57343 then
          encodeRune ((c - 55296) * 1024 + (d - 56320) + 65536) ++ unquoteUnits t 0 true
        else replacement ++ unquoteUnits t 0 false
      | none => replacement ++ unquoteUnits t 0 false
    else encodeRune c ++ unquoteUnits t 0 false

/-- The unquoted content of a scanned string body. -/
def unquote (us : List StrUnit) : Bytes := unquoteUnits us 0 false

/-- The longest prefix of digits and what follows it. -/
def spanDigits : Bytes → Bytes × Bytes
  | [] => ([], [])
  | c :: t => if isDigit c then ((spanDigits t).1.cons c, (spanDigits t).2) else ([], c :: t)

/-- Optional exponent part of a number literal. -/
def scanExp (acc s : Bytes) : Option (Bytes × Bytes) :=
  match s with
  | e :: t =>
    if e == 101 || e == 69 then
      let (sg, t1) := match t with
        | 43 :: u => ([43], u)
        | 45 :: u => ([45], u)
        | _ => ([], t)
      let (ds, r) := spanDigits t1
      if ds.isEmpty then none else some (acc ++ e :: sg ++ ds, r)
    else some (acc, s)
  | [] => some (acc, s)

/-- Optional fraction part of a number literal, then the exponent. -/
def scanFrac (acc s : Bytes) : Option (Bytes × Bytes) :=
  match s with
  | 46 :: t =>
    let (ds, r) := spanDigits t
    if ds.isEmpty then none else scanExp (acc ++ 46 :: ds) r
  | _ => scanExp acc s

/-- JSON number literal: `-? (0 | [1-9][0-9]*) (. [0-9]+)? ([eE] [+-]? [0-9]+)?`. -/
def scanNumber (s : Bytes) : Option (Bytes × Bytes) :=
  let (sg, s1) := match s with
    | 45 :: t => ([45], t)
    | _ => ([], s)
  match s1 with
  | [] => none
  | d :: t =>
    if d == 48 then scanFrac (sg ++ [48]) t
    else if 49 ≤ d && d ≤ 57 then
      let (ds, r) := spanDigits t
      scanFrac (sg ++ d :: ds) r
    else none

/-- Nesting limit of the scanner (`maxNestingDepth`). -/
def maxNestingDepth : Nat := 10000

mutual
/-- One JSON value at the head of the input (no leading whitespace). -/
def parseValue : Nat → Nat → Bytes → Option (JVal × Bytes)
  | 0, _, _ => none
  | fuel + 1, depth, s =>
    match s with
    | 123 :: t =>
      if maxNestingDepth ≤ depth then none
      else match skipWs t with
        | 125 :: r => some (JVal.obj [], r)
        | t1 => parseMembers fuel (depth + 1) t1 []
    | 91 :: t =>
      if maxNestingDepth ≤ depth then none
      else match skipWs t with
        | 93 :: r => some (JVal.arr [], r)
        | t1 => parseElems fuel (depth + 1) t1 []
    | 34 :: t => (scanString t).map fun p => (JVal.str (unquote p.1), p.2)
    | 116 :: 114 :: 117 :: 101 :: r => some (JVal.bool true, r)
    | 102 :: 97 :: 108 :: 115 :: 101 :: r => some (JVal.bool false, r)
    | 110 :: 117 :: 108 :: 108 :: r => some (JVal.null, r)
    | _ => (scanNumber s).map fun p => (JVal.num p.1, p.2)
/-- Members of an object after `{` (or after a comma), up to the closing `}`. -/
def parseMembers : Nat → Nat → Bytes → List (Bytes × JVal) → Option (JVal × Bytes)
  | 0, _, _, _ => none
  | fuel + 1, depth, s, acc =>
    match s with
    | 34 :: t =>
      match scanString t with
      | none => none
      | some (key, r) =>
        match skipWs r with
        | 58 :: r1 =>
          match parseValue fuel depth (skipWs r1) with
          | none => none
          | some (v, r2) =>
            match skipWs r2 with
            | 44 :: r3 => parseMembers fuel depth (skipWs r3) (acc ++ [(unquote key, v)])
            | 125 :: r3 => some (JVal.obj (acc ++ [(unquote key, v)]), r3)
            | _ => none
        | _ => none
    | _ => none
/-- Elements of an array after `[` (or after a comma), up to the closing `]`. -/
def parseElems : Nat → Nat → Bytes → List JVal → Option (JVal × Bytes)
  | 0, _, _, _ => none
  | fuel + 1, depth, s, acc =>
    match parseValue fuel depth s with
    | none => none
    | some (v, r) =>
      match skipWs r with
      | 44 :: r1 => parseElems fuel depth (skipWs r1) (acc ++ [v])
      | 93 :: r1 => some (JVal.arr (acc ++ [v]), r1)
      | _ => none
end

/-- The whole input as exactly one JSON value (`checkValid`, then the parse).
Every recursive call is made after at least one more input byte was consumed,
so `data.length + 1` levels of recursion are never exhausted. -/
def parse (data : Bytes) : Option JVal :=
  match parseValue (data.length + 1) 0 (skipWs data) with
  | some (v, r) => if (skipWs r).isEmpty then some v else none
  | none => none

/-- Key folding of the decoder (`foldName`): ASCII letters to upper case, and
the two non-ASCII runes whose simple case folding is an ASCII letter,
U+017F (long s) and U+212A (Kelvin sign). Other bytes are kept. -/
def foldName : Bytes → Bytes
  | [] => []
  | 197 :: 191 :: t => 83 :: foldName t
  | 226 :: 132 :: 170 :: t => 75 :: foldName t
  | c :: t => (if 97 ≤ c && c ≤ 122 then c - 32 else c) :: foldName t

/-- Does the object key select the struct field of that JSON name? -/
def keyMatches (name key : Bytes) : Bool :=
  key == name || foldName key == foldName name

/-- Value of a run of decimal digits. -/
def digitsVal (ds : Bytes) : Nat := ds.foldl (fun n d => n * 10 + (d - 48)) 0

/-- Go `strconv.ParseInt(lit, 10, 64)` on a JSON number literal: a literal
with a fraction or an exponent, or out of the `int64` range, is an error. -/
def parseInt64 (lit : Bytes) : Option Int :=
  match lit with
  | 45 :: ds =>
    if ds.all isDigit && !ds.isEmpty && digitsVal ds ≤ 9223372036854775808 then
      some (-(digitsVal ds : Int)) else none
  | ds =>
    if ds.all isDigit && !ds.isEmpty && digitsVal ds ≤ 9223372036854775807 then
      some (digitsVal ds : Int) else none

/-- Stores a JSON value into a Go `string` field; `none` is an `UnmarshalTypeError`. -/
def storeString (old : Bytes) : JVal → Option Bytes
  | JVal.str s => some s
  | JVal.null => some old
  | _ => none

/-- Stores a JSON value into a Go `int` field; `none` is an `UnmarshalTypeError`. -/
def storeInt (old : Int) : JVal → Option Int
  | JVal.num lit => parseInt64 lit
  | JVal.null => some old
  | _ => none

/-- Decodes the members of an object in order into the target; a member that
cannot be stored makes the whole `Unmarshal` return an error. -/
def decodeObject {α : Type} (store : α → Bytes → JVal → Option α) :
    List (Bytes × JVal) → α → Option α
  | [], a => some a
  | (k, v) :: t, a =>
    match store a k v with
    | some a1 => decodeObject store t a1
    | none => none

/-- Go `json.Unmarshal(data, &target)` for a struct target starting at `zero`:
`none` is a non-nil error.  A top-level `null` is accepted and changes nothing;
any other non-object value is an `UnmarshalTypeError`. -/
def unmarshal {α : Type} (store : α → Bytes → JVal → Option α) (zero : α) (data : Bytes) :
    Option α :=
  match parse data with
  | some (JVal.obj kvs) => decodeObject store kvs zero
  | some JVal.null => some zero
  | _ => none

end Json

/-! ## ws/handler.go: data -/

/-- The handshake message, `type initMsg struct` (handler.go:14-20). -/
structure initMsg where
  Host : Bytes
  Port : Int
  User : Bytes
  Cols : Int
  Rows : Int
  deriving DecidableEq, Repr

/-- The anonymous struct `rm` of the control-frame branch (handler.go:60-63);
its field `Type` is written `Type_`. -/
structure resizeMsg where
  Type_ : Bytes
  Cols : Int
  Rows : Int
  deriving DecidableEq, Repr

/-- The two uses of `json.Unmarshal` in `ws.Handler`; `none` is a non-nil error. -/
structure Codec where
  unmarshalInit : Bytes → Option initMsg
  unmarshalResize : Bytes → Option resizeMsg

namespace Json

/-- One object member stored into an `initMsg` (tags `host`, `port`, `user`,
`cols`, `rows`); a key that names no field is skipped. -/
def storeInit (im : initMsg) (key : Bytes) (v : JVal) : Option initMsg :=
  if keyMatches (ascii "host") key then
    (storeString im.Host v).map fun s => initMsg.mk s im.Port im.User im.Cols im.Rows
  else if keyMatches (ascii "port") key then
    (storeInt im.Port v).map fun n => initMsg.mk im.Host n im.User im.Cols im.Rows
  else if keyMatches (ascii "user") key then
    (storeString im.User v).map fun s => initMsg.mk im.Host im.Port s im.Cols im.Rows
  else if keyMatches (ascii "cols") key then
    (storeInt im.Cols v).map fun n => initMsg.mk im.Host im.Port im.User n im.Rows
  else if keyMatches (ascii "rows") key then
    (storeInt im.Rows v).map fun n => initMsg.mk im.Host im.Port im.User im.Cols n
  else some im

/-- One object member stored into `rm` (tag `type`, untagged fields `Cols`, `Rows`). -/
def storeResize (rm : resizeMsg) (key : Bytes) (v : JVal) : Option resizeMsg :=
  if keyMatches (ascii "type") key then
    (storeString rm.Type_ v).map fun s => resizeMsg.mk s rm.Cols rm.Rows
  else if keyMatches (ascii "Cols") key then
    (storeInt rm.Cols v).map fun n => resizeMsg.mk rm.Type_ n rm.Rows
  else if keyMatches (ascii "Rows") key then
    (storeInt rm.Rows v).map fun n => resizeMsg.mk rm.Type_ rm.Cols n
  else some rm

end Json

/-- The decoder the program runs with: `encoding/json`. -/
def goJson : Codec :=
  ⟨Json.unmarshal Json.storeInit (initMsg.mk [] 0 [] 0 0),
   Json.unmarshal Json.storeResize (resizeMsg.mk [] 0 0)⟩

/-- Close codes passed to `c.Close`. -/
inductive StatusCode where
  | StatusNormalClosure
  | StatusInternalError
  deriving DecidableEq, Repr

/-- What one `c.Read` returns: a message payload, or an error. -/
inductive Recv where
  | msg (data : Bytes)
  | err
  deriving DecidableEq, Repr

/-- What one `rwc.Read(buf)` returns: `data` is `buf[:n]`, `err` is `err != nil`. -/
structure ReadResult where
  data : Bytes
  err : Bool
  deriving DecidableEq, Repr

/-- Keys of `ssh.TerminalModes` used by `Shell`. -/
inductive TermOp where
  | ECHO
  | TTY_OP_ISPEED
  | TTY_OP_OSPEED
  deriving DecidableEq, Repr

/-- The three closable parts of a remote session. -/
inductive RemotePart where
  | client
  | session
  | stream
  deriving DecidableEq, Repr

/-- Calls made by the server, with their arguments and (where the code gets
one) what they returned.  A read whose result is `none` has been called and
has not returned. -/
inductive Event where
  | accept (ok : Bool)
  | log (tag : String)
  | clientRead (res : Option Recv)
  | clientWrite (payload : Bytes) (ok : Bool)
  | clientClose (code : StatusCode)
  | dial (user host : Bytes) (port : Int) (keyPath : Bytes)
  | readFile (path : Bytes) (ok : Bool)
  | parsePrivateKey (ok : Bool)
  | sshDial (user host : Bytes) (port : Int) (ok : Bool)
  | shell (cols rows : Int)
  | newSession (ok : Bool)
  | requestPty (term : String) (h w : Int) (modes : List (TermOp × Nat)) (ok : Bool)
  | stdinPipe (ok : Bool)
  | stdoutPipe (ok : Bool)
  | start (cmd : String) (ok : Bool)
  | remoteRead (bufLen : Nat) (res : Option ReadResult)
  | remoteWrite (payload : Bytes) (ok : Bool)
  | windowChange (h w : Int) (ok : Bool)
  | spawnInbound
  | cancel
  | sliceOutOfRange
  | remoteClose (part : RemotePart)
  deriving DecidableEq, Repr

/-- What the calls of `Dial` return. -/
structure DialEnv where
  readFileOk : Bool
  parseKeyOk : Bool
  sshDialOk : Bool

/-- What the calls of `Shell` return. -/
structure ShellEnv where
  newSessionOk : Bool
  requestPtyOk : Bool
  stdinPipeOk : Bool
  stdoutPipeOk : Bool
  startOk : Bool

/-- Everything the environment answers during one run of `ws.Handler`.
Results of writes and of `WindowChange` are indexed by the number of earlier
calls of the same kind. -/
structure World where
  acceptOk : Bool
  keyPath : Bytes
  init : Option Recv
  dialEnv : DialEnv
  shellEnv : ShellEnv
  clientReads : List Recv
  remoteWriteOk : Nat → Bool
  windowChangeOk : Nat → Bool
  remoteReads : List ReadResult
  clientWriteOk : Nat → Bool

/-! ## ssh/client.go -/

/-- Go `Dial(user, host, port, keyPath)` (client.go:20-39): the calls made and
whether a client is returned (`err == nil`).  The event `sshDial` stands for
`ssh.Dial("tcp", host:port, cfg)` with `cfg` built from `user` and the parsed
key. -/
def Dial (env : DialEnv) (user host : Bytes) (port : Int) (keyPath : Bytes) :
    List Event × Bool :=
  if !env.readFileOk then ([Event.readFile keyPath false], false)
  else if !env.parseKeyOk then
    ([Event.readFile keyPath true, Event.parsePrivateKey false], false)
  else
    ([Event.readFile keyPath true, Event.parsePrivateKey true,
      Event.sshDial user host port env.sshDialOk], env.sshDialOk)

/-- The triple returned by `Shell`: is the session non-nil, is the stream
non-nil, is the error non-nil. -/
structure ShellResult where
  sess : Bool
  rwc : Bool
  err : Bool
  deriving DecidableEq, Repr

/-- The `modes` literal of `Shell` (client.go:46-50). -/
def shellModes : List (TermOp × Nat) :=
  [(TermOp.ECHO, 1), (TermOp.TTY_OP_ISPEED, 14400), (TermOp.TTY_OP_OSPEED, 14400)]

/-- The command started by `Shell` (client.go:62). -/
def shellCommand : String := "zsh -l -c \x27tmux new -As dev\x27"

/-- Go `(*SSHClient).Shell(cols, rows)` (client.go:41-66): the calls made and the
returned triple. -/
def Shell (env : ShellEnv) (cols rows : Int) : List Event × ShellResult :=
  if !env.newSessionOk then ([Event.newSession false], ⟨false, false, true⟩)
  else if !env.requestPtyOk then
    ([Event.newSession true,
      Event.requestPty "xterm-256color" rows cols shellModes false], ⟨false, false, true⟩)
  else if !env.stdinPipeOk then
    ([Event.newSession true,
      Event.requestPty "xterm-256color" rows cols shellModes true,
      Event.stdinPipe false], ⟨false, false, true⟩)
  else if !env.stdoutPipeOk then
    ([Event.newSession true,
      Event.requestPty "xterm-256color" rows cols shellModes true,
      Event.stdinPipe true, Event.stdoutPipe false], ⟨false, false, true⟩)
  else if !env.startOk then
    ([Event.newSession true,
      Event.requestPty "xterm-256color" rows cols shellModes true,
      Event.stdinPipe true, Event.stdoutPipe true,
      Event.start shellCommand false], ⟨false, false, true⟩)
  else
    ([Event.newSession true,
      Event.requestPty "xterm-256color" rows cols shellModes true,
      Event.stdinPipe true, Event.stdoutPipe true,
      Event.start shellCommand true], ⟨true, true, false⟩)

/-! ## ws/handler.go: the relay loops and the handler -/

/-- The test `len(msg) > 0 && msg[0] == '{'` (handler.go:59). -/
def isControl : Bytes → Bool
  | 123 :: _ => true
  | _ => false

/-- The inbound relay goroutine (handler.go:52-71), run on the results of its
successive `c.Read` calls; `nw` and `nr` count the writes to the remote stream
and the `WindowChange` calls made so far.  When the results are used up the
next `c.Read` has not returned. -/
def inboundRelay (codec : Codec) (w : World) : List Recv → Nat → Nat → List Event
  | [], _, _ => [Event.clientRead none]
  | Recv.err :: _, _, _ => [Event.clientRead (some Recv.err), Event.cancel]
  | Recv.msg m :: rest, nw, nr =>
    Event.clientRead (some (Recv.msg m)) ::
      if isControl m then
        match codec.unmarshalResize m with
        | some rm =>
          if rm.Type_ = ascii "resize" then
            Event.windowChange rm.Rows rm.Cols (w.windowChangeOk nr) ::
              inboundRelay codec w rest nw (nr + 1)
          else inboundRelay codec w rest nw nr
        | none => inboundRelay codec w rest nw nr
      else
        Event.remoteWrite m (w.remoteWriteOk nw) :: inboundRelay codec w rest (nw + 1) nr

/-- Length of `buf` (handler.go:72). -/
def bufSize : Nat := 4096

/-- How a piece of the handler goroutine ends: it runs to its end, it panics,
or it is still waiting in a call. -/
inductive Exit where
  | returned
  | panicked
  | blocked
  deriving DecidableEq, Repr

/-- The outbound relay loop (handler.go:73-79), run on the results of its
successive `rwc.Read(buf)` calls; `k` counts the writes to the client made so
far.  `Exit.returned` is the `break`; slicing `buf[:n]` with `n > len(buf)`
panics. -/
def outboundRelay (w : World) : List ReadResult → Nat → List Event × Exit
  | [], _ => ([Event.remoteRead bufSize none], Exit.blocked)
  | r :: rest, k =>
    if r.err then ([Event.remoteRead bufSize (some r)], Exit.returned)
    else if bufSize < r.data.length then
      ([Event.remoteRead bufSize (some r), Event.sliceOutOfRange], Exit.panicked)
    else
      (Event.remoteRead bufSize (some r) :: Event.clientWrite r.data (w.clientWriteOk k) ::
        (outboundRelay w rest (k + 1)).1, (outboundRelay w rest (k + 1)).2)

/-- One run of the handler: the calls of the handler goroutine in program
order, the calls of the inbound relay goroutine in program order, and how the
handler goroutine ended. -/
structure Run where
  main : List Event
  inbound : List Event
  exit : Exit

/-- Lines 51-80 of `Handler`: the goroutine is started, the outbound loop runs,
and after its `break` the connection is closed with `StatusNormalClosure`. -/
def streaming (codec : Codec) (w : World) : Run :=
  ⟨Event.spawnInbound :: (outboundRelay w w.remoteReads 0).1 ++
      (match (outboundRelay w w.remoteReads 0).2 with
        | Exit.returned => [Event.clientClose StatusCode.StatusNormalClosure]
        | _ => []),
    inboundRelay codec w w.clientReads 0 0,
    (outboundRelay w w.remoteReads 0).2⟩

/-- Lines 30-80 of `Handler`, everything after the `defer`. -/
def handlerBody (codec : Codec) (w : World) : Run :=
  match w.init with
  | none => ⟨[Event.clientRead none], [], Exit.blocked⟩
  | some Recv.err => ⟨[Event.clientRead (some Recv.err), Event.log "read init:"], [], Exit.returned⟩
  | some (Recv.msg data) =>
    match codec.unmarshalInit data with
    | none =>
      ⟨[Event.clientRead (some (Recv.msg data)), Event.log "init json:"], [], Exit.returned⟩
    | some im =>
      if !(Dial w.dialEnv im.User im.Host im.Port w.keyPath).2 then
        ⟨Event.clientRead (some (Recv.msg data)) ::
            Event.dial im.User im.Host im.Port w.keyPath ::
            (Dial w.dialEnv im.User im.Host im.Port w.keyPath).1 ++ [Event.log "ssh dial:"],
          [], Exit.returned⟩
      else if (Shell w.shellEnv im.Cols im.Rows).2.err then
        ⟨Event.clientRead (some (Recv.msg data)) ::
            Event.dial im.User im.Host im.Port w.keyPath ::
            (Dial w.dialEnv im.User im.Host im.Port w.keyPath).1 ++
            Event.shell im.Cols im.Rows :: (Shell w.shellEnv im.Cols im.Rows).1 ++
            [Event.log "shell:"],
          [], Exit.returned⟩
      else
        ⟨Event.clientRead (some (Recv.msg data)) ::
            Event.dial im.User im.Host im.Port w.keyPath ::
            (Dial w.dialEnv im.User im.Host im.Port w.keyPath).1 ++
            Event.shell im.Cols im.Rows :: (Shell w.shellEnv im.Cols im.Rows).1 ++
            (streaming codec w).main,
          (streaming codec w).inbound, (streaming codec w).exit⟩

/-- Go `ws.Handler` (handler.go:22-81).  The deferred
`c.Close(websocket.StatusInternalError, "")` runs when the handler goroutine
returns or panics, not while it is still waiting in a call. -/
def Handler (codec : Codec) (w : World) : Run :=
  if !w.acceptOk then ⟨[Event.accept false, Event.log "ws accept:"], [], Exit.returned⟩
  else
    ⟨Event.accept true :: (handlerBody codec w).main ++
        (match (handlerBody codec w).exit with
          | Exit.blocked => []
          | _ => [Event.clientClose StatusCode.StatusInternalError]),
      (handlerBody codec w).inbound, (handlerBody codec w).exit⟩

/-! ## Observations on event lists -/

/-- Payloads written to the remote stream, in order. -/
def remoteWrites (t : List Event) : List Bytes :=
  t.filterMap fun e => match e with
    | Event.remoteWrite p _ => some p
    | _ => none

/-- Arguments `(h, w)` of the `WindowChange` calls, in order. -/
def resizes (t : List Event) : List (Int × Int) :=
  t.filterMap fun e => match e with
    | Event.windowChange h w _ => some (h, w)
    | _ => none

/-- Messages returned by `c.Read` calls, in order. -/
def received (t : List Event) : List Bytes :=
  t.filterMap fun e => match e with
    | Event.clientRead (some (Recv.msg m)) => some m
    | _ => none

/-- Payloads sent to the client, in order. -/
def clientPayloads (t : List Event) : List Bytes :=
  t.filterMap fun e => match e with
    | Event.clientWrite p _ => some p
    | _ => none

/-- Bytes returned by the completed reads of the remote stream, in order. -/
def remoteBytes (t : List Event) : List Bytes :=
  t.filterMap fun e => match e with
    | Event.remoteRead _ (some r) => some r.data
    | _ => none

/-- Status code of a close issued on the client connection. -/
def closeCode : Event → Option StatusCode
  | Event.clientClose c => some c
  | _ => none

/-- Status codes of the closes issued on the client connection, in order. -/
def closeCodes (t : List Event) : List StatusCode := t.filterMap closeCode

/-- Calls of `sshc.Dial`. -/
def isDial : Event → Bool
  | Event.dial _ _ _ _ => true
  | _ => false

/-- Calls of `SSHClient.Shell`. -/
def isShell : Event → Bool
  | Event.shell _ _ => true
  | _ => false

/-- Reads of the client connection. -/
def isClientRead : Event → Bool
  | Event.clientRead _ => true
  | _ => false

/-- Reads and writes on the remote byte-stream. -/
def isRemoteIO : Event → Bool
  | Event.remoteRead _ _ => true
  | Event.remoteWrite _ _ => true
  | _ => false

/-- Everything the relay loops do: remote reads and writes, writes to the
client, resizes, the cancellation, and the start of the goroutine. -/
def isRelayEvent : Event → Bool
  | Event.remoteRead _ _ => true
  | Event.remoteWrite _ _ => true
  | Event.clientWrite _ _ => true
  | Event.windowChange _ _ _ => true
  | Event.cancel => true
  | Event.spawnInbound => true
  | _ => false

/-- Closes of a part of the remote session. -/
def isRemoteClose : Event → Bool
  | Event.remoteClose _ => true
  | _ => false

/-- All calls of a run, the handler goroutine first. -/
def Run.events (r : Run) : List Event := r.main ++ r.inbound

/-- The relay loops have started: a read or a write on the remote byte-stream,
or a second read of the client connection, occurs. -/
def relayStarted (r : Run) : Bool :=
  r.events.any isRemoteIO || decide (2 ≤ (r.events.filter isClientRead).length)

/-- The handshake is not accepted: its read fails or `json.Unmarshal` rejects it. -/
def handshakeRejected (codec : Codec) (w : World) : Bool :=
  match w.init with
  | some Recv.err => true
  | some (Recv.msg data) => (codec.unmarshalInit data).isNone
  | none => false

/-- The handshake is read and parsed, and `Dial` and then `Shell` both return
without error. -/
def startupOk (codec : Codec) (w : World) : Bool :=
  match w.init with
  | some (Recv.msg data) =>
    match codec.unmarshalInit data with
    | some im =>
      (Dial w.dialEnv im.User im.Host im.Port w.keyPath).2 && !(Shell w.shellEnv im.Cols im.Rows).2.err
    | none => false
  | _ => false

/-- The handshake is read and parsed and `Dial` returns an error. -/
def dialFailed (codec : Codec) (w : World) : Bool :=
  match w.init with
  | some (Recv.msg data) =>
    match codec.unmarshalInit data with
    | some im => !(Dial w.dialEnv im.User im.Host im.Port w.keyPath).2
    | none => false
  | _ => false

/-- The handshake is read and parsed, `Dial` returns a client and `Shell`
returns an error. -/
def shellFailed (codec : Codec) (w : World) : Bool :=
  match w.init with
  | some (Recv.msg data) =>
    match codec.unmarshalInit data with
    | some im =>
      (Dial w.dialEnv im.User im.Host im.Port w.keyPath).2 && (Shell w.shellEnv im.Cols im.Rows).2.err
    | none => false
  | _ => false

/-- A world in which the connection is accepted and every call of `Dial` and
`Shell` and every write succeeds, with the given handshake read result, client
reads and remote reads. -/
def calmWorld (init : Option Recv) (clientReads : List Recv) (remoteReads : List ReadResult) :
    World :=
  ⟨true, ascii "/keys/id_ed25519", init, ⟨true, true, true⟩, ⟨true, true, true, true, true⟩,
    clientReads, fun _ => true, fun _ => true, remoteReads, fun _ => true⟩

/-- The handshake of the specification's scenario. -/
def scenarioHandshake : Bytes :=
  ascii "\x7b\"host\":\"10.0.0.5\",\"port\":22,\"user\":\"dev\",\"cols\":80,\"rows\":24\x7d"

/-- The messages a sequence of read results delivers before its first error. -/
def messagesBeforeError : List Recv → List Bytes
  | Recv.msg m :: t => m :: messagesBeforeError t
  | _ => []

/-- The global orders in which the calls of two goroutines can happen: every
merge of the two program orders. -/
inductive Interleave {α : Type} : List α → List α → List α → Prop where
  | nil : Interleave [] [] []
  | left (a : α) {xs ys zs : List α} : Interleave xs ys zs → Interleave (a :: xs) ys (a :: zs)
  | right (b : α) {xs ys zs : List α} : Interleave xs ys zs → Interleave xs (b :: ys) (b :: zs)

/-- What lines 59-68 of the handler do with one client message: the arguments
`(h, w)` of the `WindowChange` call they make, `none` when they make none. -/
def controlFrameCall (codec : Codec) (m : Bytes) : Option (Int × Int) :=
  if m.head? = some 123 then
    match codec.unmarshalResize m with
    | some rm => if rm.Type_ = ascii "resize" then some (rm.Rows, rm.Cols) else none
    | none => none
  else none

namespace Json

/-- The values of the members of an object whose key is the name, compared
without regard to case, in the order they are written. -/
def membersNamed (name : Bytes) : List (Bytes × JVal) → List JVal
  | [] => []
  | (k, v) :: t =>
    if foldName k == foldName name then v :: membersNamed name t else membersNamed name t

/-- A JSON string or `null`. -/
def stringOrNull : JVal → Bool
  | JVal.str _ => true
  | JVal.null => true
  | _ => false

/-- A JSON number that is an integer of the `int64` range, or `null`. -/
def integerOrNull : JVal → Bool
  | JVal.num lit => (parseInt64 lit).isSome
  | JVal.null => true
  | _ => false

/-- The string a list of member values gives: the last string among them, the
default when there is none. -/
def lastStringOr (d : Bytes) : List JVal → Bytes
  | [] => d
  | JVal.str s :: t => lastStringOr s t
  | _ :: t => lastStringOr d t

/-- The integer a list of member values gives: the last integer among them,
the default when there is none. -/
def lastIntOr (d : Int) : List JVal → Int
  | [] => d
  | JVal.num lit :: t => lastIntOr ((parseInt64 lit).getD d) t
  | _ :: t => lastIntOr d t

end Json

/-- The message parses as a JSON object and has type exactly `resize`. -/
def isResizeObject (m : Bytes) : Bool :=
  match Json.parse m with
  | some (Json.JVal.obj kvs) =>
    decide (Json.lastStringOr [] (Json.membersNamed (ascii "type") kvs) = ascii "resize")
  | _ => false

/-- The members `type`, `cols` and `rows` of the object all hold values of
their field: `type` strings, `cols` and `rows` integers (or `null`). -/
def wellTypedFrame (kvs : List (Bytes × Json.JVal)) : Bool :=
  (Json.membersNamed (ascii "type") kvs).all Json.stringOrNull
    && (Json.membersNamed (ascii "cols") kvs).all Json.integerOrNull
    && (Json.membersNamed (ascii "rows") kvs).all Json.integerOrNull

/-- The resize a client message asks for, read off the JSON text: a message
that begins with `{`, parses as a JSON object, has type exactly `resize` and
whose `type`, `cols` and `rows` members are well typed asks for height = its
rows and width = its cols (0 when absent); no other message asks for one. -/
def frameResize (m : Bytes) : Option (Int × Int) :=
  if m.head? = some 123 then
    match Json.parse m with
    | some (Json.JVal.obj kvs) =>
      if wellTypedFrame kvs
          && decide (Json.lastStringOr [] (Json.membersNamed (ascii "type") kvs)
              = ascii "resize") then
        some (Json.lastIntOr 0 (Json.membersNamed (ascii "rows") kvs),
          Json.lastIntOr 0 (Json.membersNamed (ascii "cols") kvs))
      else none
    | _ => none
  else none

/-- The chunks the reads of the remote stream return before the first read
that returns an error. -/
def chunksBeforeError : List ReadResult → List Bytes
  | [] => []
  | r :: t => if r.err then [] else r.data :: chunksBeforeError t

/-- The resize frame whose `cols` is a JSON string. -/
def stringColsFrame : Bytes :=
  ascii "\x7b\"type\":\"resize\",\"cols\":\"120\",\"rows\":40\x7d"

/-- The reads of the remote stream whose bytes the outbound loop forwards:
those before the first read that returns an error or overruns the buffer. -/
def forwardedReads : List ReadResult → List Bytes
  | [] => []
  | r :: t => if r.err || decide (bufSize < r.data.length) then [] else r.data :: forwardedReads t

/-- The scenario in which `ssh.Dial` fails: the handshake is read and parsed,
the key is read and parsed, the connection to the remote host is refused. -/
def dialFailsWorld : World :=
  ⟨true, ascii "/keys/id_ed25519", some (Recv.msg scenarioHandshake), ⟨true, true, false⟩,
    ⟨true, true, true, true, true⟩, [], fun _ => true, fun _ => true, [], fun _ => true⟩

/-- The scenario in which the PTY request of `Shell` fails. -/
def ptyFailsWorld : World :=
  ⟨true, ascii "/keys/id_ed25519", some (Recv.msg scenarioHandshake), ⟨true, true, true⟩,
    ⟨true, false, true, true, true⟩, [], fun _ => true, fun _ => true, [], fun _ => true⟩

/-- The same world with other results for the client reads of the inbound relay. -/
def World.withClientReads (w : World) (reads : List Recv) : World :=
  ⟨w.acceptOk, w.keyPath, w.init, w.dialEnv, w.shellEnv, reads, w.remoteWriteOk,
    w.windowChangeOk, w.remoteReads, w.clientWriteOk⟩

/-- The result flag a call returned, `true` for calls that carry none. -/
def Event.ok : Event → Bool
  | Event.accept ok => ok
  | Event.clientWrite _ ok => ok
  | Event.readFile _ ok => ok
  | Event.parsePrivateKey ok => ok
  | Event.sshDial _ _ _ ok => ok
  | Event.newSession ok => ok
  | Event.requestPty _ _ _ _ ok => ok
  | Event.stdinPipe ok => ok
  | Event.stdoutPipe ok => ok
  | Event.start _ ok => ok
  | Event.remoteWrite _ ok => ok
  | Event.windowChange _ _ ok => ok
  | _ => true

/-- The call without what it returned: the result flag is set to `true`. -/
def Event.call : Event → Event
  | Event.accept _ => Event.accept true
  | Event.clientWrite p _ => Event.clientWrite p true
  | Event.readFile p _ => Event.readFile p true
  | Event.parsePrivateKey _ => Event.parsePrivateKey true
  | Event.sshDial u h p _ => Event.sshDial u h p true
  | Event.newSession _ => Event.newSession true
  | Event.requestPty t h w m _ => Event.requestPty t h w m true
  | Event.stdinPipe _ => Event.stdinPipe true
  | Event.stdoutPipe _ => Event.stdoutPipe true
  | Event.start c _ => Event.start c true
  | Event.remoteWrite p _ => Event.remoteWrite p true
  | Event.windowChange h w _ => Event.windowChange h w true
  | e => e

/-- The scenario of a remote end-of-stream: start-up succeeds, the first read
of the remote stream returns no bytes and an error, the client sends nothing. -/
def endOfStreamWorld : World :=
  calmWorld (some (Recv.msg scenarioHandshake)) [] [⟨[], true⟩]

/-- A world in which start-up succeeds and every write to the remote stream and
to the client fails. -/
def failingWritesWorld (clientReads : List Recv) (remoteReads : List ReadResult) : World :=
  ⟨true, ascii "/keys/id_ed25519", some (Recv.msg scenarioHandshake), ⟨true, true, true⟩,
    ⟨true, true, true, true, true⟩, clientReads, fun _ => false, fun _ => true, remoteReads,
    fun _ => false⟩

/-! ## path/filepath on Unix, as far as `upload.Handler` uses it

The library is not part of the repository; `Base`, `Clean` and `Join` are
models of its documented behaviour for the separator `/` and no volume names. -/

namespace Filepath

/-- The path without its trailing slashes. -/
def stripTrailingSlashes (p : Bytes) : Bytes := (p.reverse.dropWhile (· == 47)).reverse

/-- What follows the last slash of the path (the whole path if it has none). -/
def lastElement (p : Bytes) : Bytes := (p.reverse.takeWhile (· != 47)).reverse

/-- Go `filepath.Base`: the last element of the path; trailing slashes are
removed first; `.` for the empty path, `/` for a path of slashes only. -/
def Base (path : Bytes) : Bytes :=
  if path.isEmpty then [46]
  else if (lastElement (stripTrailingSlashes path)).isEmpty then [47]
  else lastElement (stripTrailingSlashes path)

/-- The elements between the slashes of a path. -/
def splitSlash (path : Bytes) : List Bytes := path.splitOn 47

/-- The elements kept by `Clean`, innermost last in `acc` reversed: empty and
`.` elements are dropped; `..` removes the element before it, is dropped at
the root, and is kept at the start of a relative path. -/
def cleanElements (rooted : Bool) : List Bytes → List Bytes → List Bytes
  | [], acc => acc.reverse
  | c :: rest, acc =>
    if c.isEmpty || c == [46] then cleanElements rooted rest acc
    else if c == [46, 46] then
      match acc with
      | top :: acc1 =>
        if top == [46, 46] then cleanElements rooted rest (c :: acc)
        else cleanElements rooted rest acc1
      | [] => if rooted then cleanElements rooted rest [] else cleanElements rooted rest [c]
    else cleanElements rooted rest (c :: acc)

/-- The elements joined by single slashes. -/
def joinSlash (elems : List Bytes) : Bytes := [47].intercalate elems

/-- Go `filepath.Clean`: the shortest path name equivalent to the path by
purely lexical processing. -/
def Clean (path : Bytes) : Bytes :=
  if path.isEmpty then [46]
  else if path.head? == some 47 then 47 :: joinSlash (cleanElements true (splitSlash path) [])
  else if (cleanElements false (splitSlash path) []).isEmpty then [46]
  else joinSlash (cleanElements false (splitSlash path) [])

/-- Go `filepath.Join` of two elements: empty elements are ignored, the rest is
joined by a slash and cleaned; the result is empty when both are empty. -/
def Join (a b : Bytes) : Bytes :=
  if !a.isEmpty then Clean (a ++ 47 :: b)
  else if !b.isEmpty then Clean b
  else []

/-- An element that `Clean` keeps as it is: not empty, not `.`, not `..`, and
without a slash. -/
def Plain (e : Bytes) : Prop := e ≠ [] ∧ e ≠ [46] ∧ e ≠ [46, 46] ∧ 47 ∉ e

/-- Shape of the stack of `cleanElements` (top first): plain elements above
`..` elements, and no `..` element in a rooted path. -/
def StackOk (r : Bool) (acc : List Bytes) : Prop :=
  ∃ n pl, acc = pl ++ List.replicate n [46, 46] ∧ (r = true → n = 0) ∧ ∀ e ∈ pl, Plain e

end Filepath

/-! ## upload/handler.go -/

namespace Upload

/-- The parts of the HTTP request `Handler` looks at: the method, and what
`r.FormFile("file")` returns (`header.Filename` and the content; `none` is an
error). -/
structure Request where
  method : Bytes
  formFile : Option (Bytes × Bytes)

/-- What the environment answers: `os.UserHomeDir()` (empty on error) and
whether `os.Create` succeeds. -/
structure Env where
  home : Bytes
  createOk : Bool

/-- Calls made by `upload.Handler`. -/
inductive Event where
  | writeHeader (code : Nat)
  | parseMultipartForm (maxMemory : Nat)
  | mkdirAll (path : Bytes) (perm : Nat)
  | create (path : Bytes) (ok : Bool)
  | copy (dst : Bytes) (content : Bytes)
  | encode (ok : Bool) (savedPath : Bytes)
  | closeDst
  | closeForm
  deriving DecidableEq, Repr

/-- Go `upload.Handler` (handler.go:11-34). -/
def Handler (env : Env) (r : Request) : List Event :=
  if r.method != ascii "POST" then [Event.writeHeader 405]
  else
    match r.formFile with
    | none => [Event.parseMultipartForm (50 * 2 ^ 20), Event.writeHeader 400]
    | some (filename, content) =>
      if !env.createOk then
        [Event.parseMultipartForm (50 * 2 ^ 20),
          Event.mkdirAll (Filepath.Join env.home (ascii "uploads")) 448,
          Event.create
            (Filepath.Join (Filepath.Join env.home (ascii "uploads")) (Filepath.Base filename))
            false,
          Event.writeHeader 500, Event.closeForm]
      else
        [Event.parseMultipartForm (50 * 2 ^ 20),
          Event.mkdirAll (Filepath.Join env.home (ascii "uploads")) 448,
          Event.create
            (Filepath.Join (Filepath.Join env.home (ascii "uploads")) (Filepath.Base filename))
            true,
          Event.copy
            (Filepath.Join (Filepath.Join env.home (ascii "uploads")) (Filepath.Base filename))
            content,
          Event.encode true (ascii "~/uploads/" ++ Filepath.Base filename),
          Event.closeDst, Event.closeForm]

end Upload

/-! ## Observations and the two loops -/

theorem isControl_eq_head (m : Bytes) : isControl m = (m.head? == some 123) := by
  cases m with
  | nil => rfl
  | cons b bs =>
    by_cases hb : b = 123
    · subst hb; rfl
    · have h1 : isControl (b :: bs) = false := by
        unfold isControl
        split
        · rename_i h; cases h; exact absurd rfl hb
        · rfl
      simp [h1, hb]

theorem remoteWrites_append (s t : List Event) :
    remoteWrites (s ++ t) = remoteWrites s ++ remoteWrites t := by
  simp [remoteWrites]

theorem resizes_append (s t : List Event) : resizes (s ++ t) = resizes s ++ resizes t := by
  simp [resizes]

theorem closeCodes_append (s t : List Event) :
    closeCodes (s ++ t) = closeCodes s ++ closeCodes t := by
  simp [closeCodes]

theorem closeCodes_nil : closeCodes [] = [] := rfl

theorem closeCodes_cons (e : Event) (t : List Event) :
    closeCodes (e :: t) = (closeCode e).toList ++ closeCodes t := by
  cases h : closeCode e <;> simp [closeCodes, List.filterMap_cons, h]

theorem no_relay_calls (t : List Event) (h : t.any isRelayEvent = false) :
    remoteWrites t = [] ∧ resizes t = [] ∧ clientPayloads t = [] := by
  unfold remoteWrites resizes clientPayloads
  induction t with
  | nil => exact ⟨rfl, rfl, rfl⟩
  | cons e t ih =>
    simp only [List.any_cons, Bool.or_eq_false_iff] at h
    obtain ⟨h1, h2, h3⟩ := ih h.2
    cases e <;> simp_all [isRelayEvent, List.filterMap_cons]

theorem not_mem_of_any_isRelayEvent {t : List Event} (h : t.any isRelayEvent = false)
    (e : Event) (he : isRelayEvent e = true) : e ∉ t := by
  intro hmem
  have := List.any_eq_true.mpr ⟨e, hmem, he⟩
  rw [h] at this
  cases this

theorem inboundRelay_remoteWrites (codec : Codec) (w : World) (reads : List Recv)
    (nw nr : Nat) :
    remoteWrites (inboundRelay codec w reads nw nr)
      = (messagesBeforeError reads).filter (fun m => m.head? != some 123) := by
  unfold remoteWrites
  induction reads generalizing nw nr with
  | nil => rfl
  | cons r rest ih =>
    cases r with
    | err => rfl
    | msg m =>
      simp only [inboundRelay, messagesBeforeError, isControl_eq_head]
      by_cases hm : m.head? = some 123
      · cases hdec : codec.unmarshalResize m with
        | none => simp [hm, remoteWrites, ih]
        | some rm =>
          by_cases ht : rm.Type_ = ascii "resize" <;> simp [hm, remoteWrites, ih, ht]
      · simp [hm, remoteWrites, ih]

theorem inboundRelay_resizes (codec : Codec) (w : World) (reads : List Recv) (nw nr : Nat) :
    resizes (inboundRelay codec w reads nw nr)
      = (messagesBeforeError reads).filterMap (controlFrameCall codec) := by
  unfold resizes
  induction reads generalizing nw nr with
  | nil => rfl
  | cons r rest ih =>
    cases r with
    | err => rfl
    | msg m =>
      simp only [inboundRelay, messagesBeforeError, isControl_eq_head, List.filterMap_cons,
        controlFrameCall]
      by_cases hm : m.head? = some 123
      · cases hdec : codec.unmarshalResize m with
        | none => simp [hm, resizes, ih]
        | some rm =>
          by_cases ht : rm.Type_ = ascii "resize" <;> simp [hm, resizes, ih, ht]
      · simp [hm, resizes, ih]

theorem inboundRelay_received (codec : Codec) (w : World) (reads : List Recv) (nw nr : Nat) :
    received (inboundRelay codec w reads nw nr) = messagesBeforeError reads := by
  unfold received
  induction reads generalizing nw nr with
  | nil => rfl
  | cons r rest ih =>
    cases r with
    | err => rfl
    | msg m =>
      simp only [inboundRelay, messagesBeforeError, isControl_eq_head]
      by_cases hm : m.head? = some 123
      · cases hdec : codec.unmarshalResize m with
        | none => simp [hm, received, ih]
        | some rm =>
          by_cases ht : rm.Type_ = ascii "resize" <;> simp [hm, received, ih, ht]
      · simp [hm, received, ih]

theorem inboundRelay_no_close (codec : Codec) (w : World) (reads : List Recv) (nw nr : Nat) :
    closeCodes (inboundRelay codec w reads nw nr) = []
    ∧ (inboundRelay codec w reads nw nr).any isRemoteClose = false := by
  unfold closeCodes
  induction reads generalizing nw nr with
  | nil => exact ⟨rfl, rfl⟩
  | cons r rest ih =>
    cases r with
    | err => exact ⟨rfl, rfl⟩
    | msg m =>
      simp only [inboundRelay]
      by_cases hm : isControl m = true
      · cases hdec : codec.unmarshalResize m with
        | none => simpa [hm, closeCode, isRemoteClose] using ih nw nr
        | some rm =>
          by_cases ht : rm.Type_ = ascii "resize"
          · simpa [hm, ht, closeCode, isRemoteClose] using ih nw (nr + 1)
          · simpa [hm, ht, closeCode, isRemoteClose] using ih nw nr
      · simpa [hm, closeCode, isRemoteClose] using ih (nw + 1) nr

theorem inboundRelay_client_read_error (codec : Codec) (w : World) (msgs : List Bytes)
    (rest : List Recv) (nw nr : Nat) :
    ∃ t, inboundRelay codec w (msgs.map Recv.msg ++ Recv.err :: rest) nw nr
        = t ++ [Event.clientRead (some Recv.err), Event.cancel]
      ∧ Event.cancel ∉ t := by
  induction msgs generalizing nw nr with
  | nil => exact ⟨[], rfl, by simp⟩
  | cons m ms ih =>
    simp only [List.map_cons, List.cons_append, inboundRelay]
    by_cases hm : isControl m = true
    · cases hdec : codec.unmarshalResize m with
      | none =>
        obtain ⟨t, ht, hc⟩ := ih nw nr
        exact ⟨Event.clientRead (some (Recv.msg m)) :: t, by simp [hm, ht], by simp [hc]⟩
      | some rm =>
        by_cases hty : rm.Type_ = ascii "resize"
        · obtain ⟨t, ht, hc⟩ := ih nw (nr + 1)
          exact ⟨Event.clientRead (some (Recv.msg m)) ::
            Event.windowChange rm.Rows rm.Cols (w.windowChangeOk nr) :: t,
            by simp [hm, hty, ht], by simp [hc]⟩
        · obtain ⟨t, ht, hc⟩ := ih nw nr
          exact ⟨Event.clientRead (some (Recv.msg m)) :: t, by simp [hm, hty, ht], by simp [hc]⟩
    · obtain ⟨t, ht, hc⟩ := ih (nw + 1) nr
      exact ⟨Event.clientRead (some (Recv.msg m)) :: Event.remoteWrite m (w.remoteWriteOk nw) :: t,
        by simp [hm, ht], by simp [hc]⟩

theorem inboundRelay_calls (codec : Codec) (w w2 : World) (reads : List Recv)
    (nw nr nw2 nr2 : Nat) :
    (inboundRelay codec w reads nw nr).map Event.call
      = (inboundRelay codec w2 reads nw2 nr2).map Event.call := by
  induction reads generalizing nw nr nw2 nr2 with
  | nil => rfl
  | cons r rest ih =>
    cases r with
    | err => rfl
    | msg m =>
      simp only [inboundRelay]
      by_cases hm : isControl m = true
      · cases hdec : codec.unmarshalResize m with
        | none => simpa [hm] using ih nw nr nw2 nr2
        | some rm =>
          by_cases hty : rm.Type_ = ascii "resize"
          · simpa [hm, hty, Event.call] using ih nw (nr + 1) nw2 (nr2 + 1)
          · simpa [hm, hty] using ih nw nr nw2 nr2
      · simpa [hm, Event.call] using ih (nw + 1) nr (nw2 + 1) nr2

theorem outbound_payloads (w : World) (reads : List ReadResult) (k : Nat) :
    clientPayloads (outboundRelay w reads k).1 = forwardedReads reads := by
  unfold clientPayloads
  induction reads generalizing k with
  | nil => rfl
  | cons r rest ih =>
    by_cases he : r.err = true
    · simp [outboundRelay, forwardedReads, he, clientPayloads]
    · by_cases hl : bufSize < r.data.length
      · simp [outboundRelay, forwardedReads, he, hl, clientPayloads]
      · simp [outboundRelay, forwardedReads, he, hl, clientPayloads, ih]

theorem forwardedReads_length (reads : List ReadResult) :
    ∀ p ∈ forwardedReads reads, p.length ≤ 4096 := by
  induction reads with
  | nil => intro p hp; cases hp
  | cons r rest ih =>
    intro p hp
    by_cases hs : (r.err || decide (bufSize < r.data.length)) = true
    · simp [forwardedReads, hs] at hp
    · simp only [forwardedReads, hs] at hp
      simp only [Bool.or_eq_true, decide_eq_true_eq, not_or, not_lt, bufSize] at hs
      rcases List.mem_cons.mp hp with h | h
      · rw [h]; exact hs.2
      · exact ih p h

theorem clientPayloads_append (s t : List Event) :
    clientPayloads (s ++ t) = clientPayloads s ++ clientPayloads t := by
  simp [clientPayloads]

theorem forwardedReads_of_bounded (reads : List ReadResult)
    (h : ∀ r ∈ reads, r.data.length ≤ bufSize) : forwardedReads reads = chunksBeforeError reads := by
  induction reads with
  | nil => rfl
  | cons r rest ih =>
    have hr : ¬ bufSize < r.data.length := Nat.not_lt.mpr (h r (List.mem_cons_self _ _))
    have ih1 := ih (fun x hx => h x (List.mem_cons_of_mem _ hx))
    by_cases he : r.err = true
    · simp [forwardedReads, chunksBeforeError, he]
    · simp [forwardedReads, chunksBeforeError, he, hr, ih1]

theorem inboundRelay_no_client_write (codec : Codec) (w : World) (reads : List Recv)
    (nw nr : Nat) : clientPayloads (inboundRelay codec w reads nw nr) = [] := by
  unfold clientPayloads
  induction reads generalizing nw nr with
  | nil => rfl
  | cons r rest ih =>
    cases r with
    | err => rfl
    | msg m =>
      simp only [inboundRelay]
      by_cases hm : isControl m = true
      · cases hdec : codec.unmarshalResize m with
        | none => simpa [hm] using ih nw nr
        | some rm =>
          by_cases ht : rm.Type_ = ascii "resize"
          · simpa [hm, ht] using ih nw (nr + 1)
          · simpa [hm, ht] using ih nw nr
      · simpa [hm] using ih (nw + 1) nr

theorem outboundRelay_starts_with_read (w : World) (reads : List ReadResult) (k : Nat) :
    ∃ res t, (outboundRelay w reads k).1 = Event.remoteRead bufSize res :: t := by
  cases reads with
  | nil => exact ⟨none, [], rfl⟩
  | cons r rest =>
    by_cases he : r.err = true
    · exact ⟨some r, [], by simp [outboundRelay, he]⟩
    · by_cases hl : bufSize < r.data.length
      · exact ⟨some r, [Event.sliceOutOfRange], by simp [outboundRelay, he, hl]⟩
      · exact ⟨some r, Event.clientWrite r.data (w.clientWriteOk k) ::
          (outboundRelay w rest (k + 1)).1, by simp [outboundRelay, he, hl]⟩

theorem outboundRelay_no_close (w : World) (reads : List ReadResult) (k : Nat) :
    closeCodes (outboundRelay w reads k).1 = []
    ∧ (outboundRelay w reads k).1.any isRemoteClose = false := by
  unfold closeCodes
  induction reads generalizing k with
  | nil => exact ⟨rfl, rfl⟩
  | cons r rest ih =>
    by_cases he : r.err = true
    · simp [outboundRelay, he, closeCode, isRemoteClose]
    · by_cases hl : bufSize < r.data.length
      · simp [outboundRelay, he, hl, closeCode, isRemoteClose]
      · simpa [outboundRelay, he, hl, closeCode, isRemoteClose] using ih (k + 1)

theorem outboundRelay_no_inbound_calls (w : World) (reads : List ReadResult) (k : Nat) :
    remoteWrites (outboundRelay w reads k).1 = [] ∧ resizes (outboundRelay w reads k).1 = [] := by
  unfold remoteWrites resizes
  induction reads generalizing k with
  | nil => exact ⟨rfl, rfl⟩
  | cons r rest ih =>
    by_cases he : r.err = true
    · simp [outboundRelay, he]
    · by_cases hl : bufSize < r.data.length
      · simp [outboundRelay, he, hl]
      · simpa [outboundRelay, he, hl] using ih (k + 1)

theorem outboundRelay_no_cancel (w : World) (reads : List ReadResult) (k : Nat) :
    Event.cancel ∉ (outboundRelay w reads k).1 := by
  induction reads generalizing k with
  | nil => simp [outboundRelay]
  | cons r rest ih =>
    by_cases he : r.err = true
    · simp [outboundRelay, he]
    · by_cases hl : bufSize < r.data.length
      · simp [outboundRelay, he, hl]
      · simpa [outboundRelay, he, hl] using ih (k + 1)

theorem outboundRelay_error_read_last (w : World) (reads : List ReadResult) (k : Nat)
    (r : ReadResult) (hr : r.err = true)
    (hmem : Event.remoteRead bufSize (some r) ∈ (outboundRelay w reads k).1) :
    ∃ pre, (outboundRelay w reads k).1 = pre ++ [Event.remoteRead bufSize (some r)]
      ∧ (outboundRelay w reads k).2 = Exit.returned := by
  induction reads generalizing k with
  | nil => simp [outboundRelay] at hmem
  | cons r1 rest ih =>
    by_cases he : r1.err = true
    · simp only [outboundRelay, he, if_true, List.mem_singleton, Event.remoteRead.injEq,
        Option.some.injEq, true_and] at hmem
      subst hmem
      exact ⟨[], by simp [outboundRelay, he], by simp [outboundRelay, he]⟩
    · have hne : r ≠ r1 := fun h => he (h ▸ hr)
      by_cases hl : bufSize < r1.data.length
      · simp [outboundRelay, he, hl, hne] at hmem
      · simp only [outboundRelay, he, hl, if_false, List.mem_cons, Event.remoteRead.injEq,
          Option.some.injEq, true_and, hne, false_or, reduceCtorEq] at hmem
        obtain ⟨pre, hpre, hex⟩ := ih (k + 1) hmem
        exact ⟨Event.remoteRead bufSize (some r1) :: Event.clientWrite r1.data (w.clientWriteOk k)
          :: pre, by simp [outboundRelay, he, hl, hpre], by simp [outboundRelay, he, hl, hex]⟩

theorem outboundRelay_calls (w w2 : World) (reads : List ReadResult) (k k2 : Nat) :
    (outboundRelay w reads k).1.map Event.call = (outboundRelay w2 reads k2).1.map Event.call
    ∧ (outboundRelay w reads k).2 = (outboundRelay w2 reads k2).2 := by
  induction reads generalizing k k2 with
  | nil => exact ⟨rfl, rfl⟩
  | cons r rest ih =>
    by_cases he : r.err = true
    · simp [outboundRelay, he]
    · by_cases hl : bufSize < r.data.length
      · simp [outboundRelay, he, hl]
      · simpa [outboundRelay, he, hl, Event.call] using ih (k + 1) (k2 + 1)

theorem outboundRelay_withClientReads (w : World) (reads : List Recv)
    (rs : List ReadResult) (k : Nat) :
    outboundRelay (w.withClientReads reads) rs k = outboundRelay w rs k := by
  have hc : (w.withClientReads reads).clientWriteOk = w.clientWriteOk := rfl
  induction rs generalizing k with
  | nil => rfl
  | cons r rest ih =>
    by_cases he : r.err = true
    · simp [outboundRelay, he]
    · by_cases hl : bufSize < r.data.length
      · simp [outboundRelay, he, hl]
      · simp [outboundRelay, he, hl, ih, hc]

theorem interleave_filterMap_left {α β : Type} (f : α → Option β) {xs ys zs : List α}
    (h : Interleave xs ys zs) (hys : ys.filterMap f = []) :
    zs.filterMap f = xs.filterMap f := by
  induction h with
  | nil => rfl
  | left a _ ih =>
    cases hfa : f a <;> simp [List.filterMap_cons, hfa, ih hys]
  | right b _ ih =>
    cases hfb : f b with
    | none =>
      simp only [List.filterMap_cons, hfb] at hys ⊢
      exact ih hys
    | some c => simp [List.filterMap_cons, hfb] at hys

theorem Dial_events (env : DialEnv) (user host : Bytes) (port : Int) (keyPath : Bytes) :
    closeCodes (Dial env user host port keyPath).1 = []
    ∧ (Dial env user host port keyPath).1.any isDial = false
    ∧ (Dial env user host port keyPath).1.any isShell = false
    ∧ (Dial env user host port keyPath).1.any isRelayEvent = false
    ∧ (Dial env user host port keyPath).1.any isRemoteIO = false
    ∧ (Dial env user host port keyPath).1.any isRemoteClose = false
    ∧ (Dial env user host port keyPath).1.filter isClientRead = [] := by
  rcases env with ⟨a, b, c⟩
  cases a <;> cases b <;> cases c <;> exact ⟨rfl, rfl, rfl, rfl, rfl, rfl, rfl⟩

theorem Shell_events (env : ShellEnv) (cols rows : Int) :
    closeCodes (Shell env cols rows).1 = []
    ∧ (Shell env cols rows).1.any isDial = false
    ∧ (Shell env cols rows).1.any isShell = false
    ∧ (Shell env cols rows).1.any isRelayEvent = false
    ∧ (Shell env cols rows).1.any isRemoteIO = false
    ∧ (Shell env cols rows).1.any isRemoteClose = false
    ∧ (Shell env cols rows).1.filter isClientRead = [] := by
  rcases env with ⟨a, b, c, d, e⟩
  cases a <;> cases b <;> cases c <;> cases d <;> cases e <;>
    exact ⟨rfl, rfl, rfl, rfl, rfl, rfl, rfl⟩

theorem Shell_steps (env : ShellEnv) (c r : Int) :
    (Shell env c r).1.map Event.call
        = ([Event.newSession true,
            Event.requestPty "xterm-256color" r c
              [(TermOp.ECHO, 1), (TermOp.TTY_OP_ISPEED, 14400), (TermOp.TTY_OP_OSPEED, 14400)] true,
            Event.stdinPipe true, Event.stdoutPipe true,
            Event.start "zsh -l -c \x27tmux new -As dev\x27" true]).take (Shell env c r).1.length
    ∧ (Shell env c r).1 ≠ []
    ∧ (Shell env c r).1.dropLast.all Event.ok = true
    ∧ ((Shell env c r).2.err = true ↔ (Shell env c r).1.getLast?.map Event.ok = some false)
    ∧ ((Shell env c r).2.err = true →
        (Shell env c r).2.sess = false ∧ (Shell env c r).2.rwc = false)
    ∧ ((Shell env c r).2.err = false →
        (Shell env c r).1.length = 5 ∧ (Shell env c r).2.sess = true
        ∧ (Shell env c r).2.rwc = true) := by
  rcases env with ⟨a, b, c1, d, e⟩
  cases a <;> cases b <;> cases c1 <;> cases d <;> cases e <;>
    simp [Shell, shellModes, shellCommand, Event.call, Event.ok]

theorem goJson_resize_example :
    goJson.unmarshalResize (ascii "\x7b\"type\":\"resize\",\"cols\":120,\"rows\":40\x7d")
      = some ⟨ascii "resize", 120, 40⟩ := by decide

/-- A frame whose `cols` is not an integer is rejected by `json.Unmarshal`
(an `UnmarshalTypeError`): it does not parse into `rm`. -/
theorem goJson_resize_rejects_non_integer_cols :
    goJson.unmarshalResize (ascii "\x7b\"type\":\"resize\",\"cols\":\"120\"\x7d") = none
    ∧ goJson.unmarshalResize (ascii "\x7b\"type\":\"resize\",\"cols\":1.5\x7d") = none := by
  decide

theorem keyMatches_eq_fold (name key : Bytes) :
    Json.keyMatches name key = (Json.foldName key == Json.foldName name) := by
  unfold Json.keyMatches
  by_cases h : key = name
  · subst h; simp
  · simp [h]

/-- Go's member-by-member decoding into `rm` agrees with reading each field off
the object: it fails exactly when a `type`, `cols` or `rows` member is ill
typed, and otherwise each field is what its last non-null member gives. -/
theorem decodeObject_storeResize (kvs : List (Bytes × Json.JVal)) (rm : resizeMsg) :
    Json.decodeObject Json.storeResize kvs rm
      = if wellTypedFrame kvs then
          some ⟨Json.lastStringOr rm.Type_ (Json.membersNamed (ascii "type") kvs),
            Json.lastIntOr rm.Cols (Json.membersNamed (ascii "cols") kvs),
            Json.lastIntOr rm.Rows (Json.membersNamed (ascii "rows") kvs)⟩
        else none := by
  have hC : Json.foldName (ascii "Cols") = Json.foldName (ascii "cols") := by decide
  have hR : Json.foldName (ascii "Rows") = Json.foldName (ascii "rows") := by decide
  have hTC : Json.foldName (ascii "type") ≠ Json.foldName (ascii "cols") := by decide
  have hTR : Json.foldName (ascii "type") ≠ Json.foldName (ascii "rows") := by decide
  have hCR : Json.foldName (ascii "cols") ≠ Json.foldName (ascii "rows") := by decide
  induction kvs generalizing rm with
  | nil => simp [Json.decodeObject, wellTypedFrame, Json.membersNamed, Json.lastStringOr,
      Json.lastIntOr]
  | cons kv rest ih =>
    obtain ⟨k, v⟩ := kv
    simp only [Json.decodeObject, Json.storeResize, keyMatches_eq_fold, hC, hR]
    by_cases hT : Json.foldName k = Json.foldName (ascii "type")
    · cases v <;>
        simp [hT, hTC, hTR, Json.storeString, ih, wellTypedFrame, Json.membersNamed,
          Json.stringOrNull, Json.lastStringOr]
    · by_cases hCo : Json.foldName k = Json.foldName (ascii "cols")
      · cases v with
        | num lit =>
          cases hl : Json.parseInt64 lit <;>
            simp [hT, hCo, hCR, Ne.symm hTC, Json.storeInt, ih, wellTypedFrame, Json.membersNamed,
              Json.integerOrNull, Json.lastIntOr, hl]
        | _ =>
          simp [hT, hCo, hCR, Ne.symm hTC, Json.storeInt, ih, wellTypedFrame, Json.membersNamed,
            Json.integerOrNull, Json.lastIntOr]
      · by_cases hRo : Json.foldName k = Json.foldName (ascii "rows")
        · cases v with
          | num lit =>
            cases hl : Json.parseInt64 lit <;>
              simp [hT, hCo, hRo, Ne.symm hTR, Ne.symm hCR, Json.storeInt, ih, wellTypedFrame, Json.membersNamed,
                Json.integerOrNull, Json.lastIntOr, hl]
          | _ =>
            simp [hT, hCo, hRo, Ne.symm hTR, Ne.symm hCR, Json.storeInt, ih, wellTypedFrame, Json.membersNamed,
              Json.integerOrNull, Json.lastIntOr]
        · simp [hT, hCo, hRo, ih, wellTypedFrame, Json.membersNamed]

theorem controlFrameCall_goJson (m : Bytes) : controlFrameCall goJson m = frameResize m := by
  unfold controlFrameCall frameResize
  by_cases hm : m.head? = some 123
  · simp only [hm, if_true, goJson, Json.unmarshal]
    have hz : ¬ (([] : Bytes) = ascii "resize") := by decide
    cases hp : Json.parse m with
    | none => rfl
    | some v =>
      cases v with
      | obj kvs =>
        simp only [decodeObject_storeResize]
        by_cases hw : wellTypedFrame kvs = true
        · by_cases ht : Json.lastStringOr [] (Json.membersNamed (ascii "type") kvs)
              = ascii "resize"
          · simp [hw, ht]
          · simp [hw, ht]
        · simp [hw]
      | null => simp [hz]
      | _ => rfl
  · simp [hm]

/-! ## The handler, case by case -/

theorem Handler_read_pending (codec : Codec) (w : World) (hacc : w.acceptOk = true)
    (hi : w.init = none) :
    Handler codec w = ⟨[Event.accept true, Event.clientRead none], [], Exit.blocked⟩ := by
  simp [Handler, handlerBody, hacc, hi]

theorem Handler_read_failed (codec : Codec) (w : World) (hacc : w.acceptOk = true)
    (hi : w.init = some Recv.err) :
    Handler codec w
      = ⟨[Event.accept true, Event.clientRead (some Recv.err), Event.log "read init:",
          Event.clientClose StatusCode.StatusInternalError], [], Exit.returned⟩ := by
  simp [Handler, handlerBody, hacc, hi]

theorem Handler_parse_failed (codec : Codec) (w : World) (data : Bytes)
    (hacc : w.acceptOk = true) (hi : w.init = some (Recv.msg data))
    (hp : codec.unmarshalInit data = none) :
    Handler codec w
      = ⟨[Event.accept true, Event.clientRead (some (Recv.msg data)), Event.log "init json:",
          Event.clientClose StatusCode.StatusInternalError], [], Exit.returned⟩ := by
  simp [Handler, handlerBody, hacc, hi, hp]

theorem Handler_dial_failed (codec : Codec) (w : World) (data : Bytes) (im : initMsg)
    (hacc : w.acceptOk = true) (hi : w.init = some (Recv.msg data))
    (hp : codec.unmarshalInit data = some im)
    (hd : (Dial w.dialEnv im.User im.Host im.Port w.keyPath).2 = false) :
    Handler codec w
      = ⟨Event.accept true :: Event.clientRead (some (Recv.msg data)) ::
          Event.dial im.User im.Host im.Port w.keyPath ::
          (Dial w.dialEnv im.User im.Host im.Port w.keyPath).1 ++
          [Event.log "ssh dial:", Event.clientClose StatusCode.StatusInternalError],
        [], Exit.returned⟩ := by
  simp [Handler, handlerBody, hacc, hi, hp, hd]

theorem Handler_shell_failed (codec : Codec) (w : World) (data : Bytes) (im : initMsg)
    (hacc : w.acceptOk = true) (hi : w.init = some (Recv.msg data))
    (hp : codec.unmarshalInit data = some im)
    (hd : (Dial w.dialEnv im.User im.Host im.Port w.keyPath).2 = true)
    (hs : (Shell w.shellEnv im.Cols im.Rows).2.err = true) :
    Handler codec w
      = ⟨Event.accept true :: Event.clientRead (some (Recv.msg data)) ::
          Event.dial im.User im.Host im.Port w.keyPath ::
          (Dial w.dialEnv im.User im.Host im.Port w.keyPath).1 ++
          Event.shell im.Cols im.Rows :: (Shell w.shellEnv im.Cols im.Rows).1 ++
          [Event.log "shell:", Event.clientClose StatusCode.StatusInternalError],
        [], Exit.returned⟩ := by
  simp [Handler, handlerBody, hacc, hi, hp, hd, hs]

/-- What follows the outbound loop in the handler goroutine: after the `break`
the explicit close and then the deferred one, after a panic the deferred close
alone, nothing while the loop is still waiting. -/
theorem Handler_streaming (codec : Codec) (w : World) (data : Bytes) (im : initMsg)
    (hacc : w.acceptOk = true) (hi : w.init = some (Recv.msg data))
    (hp : codec.unmarshalInit data = some im)
    (hd : (Dial w.dialEnv im.User im.Host im.Port w.keyPath).2 = true)
    (hs : (Shell w.shellEnv im.Cols im.Rows).2.err = false) :
    Handler codec w
      = ⟨Event.accept true :: Event.clientRead (some (Recv.msg data)) ::
          Event.dial im.User im.Host im.Port w.keyPath ::
          (Dial w.dialEnv im.User im.Host im.Port w.keyPath).1 ++
          Event.shell im.Cols im.Rows :: (Shell w.shellEnv im.Cols im.Rows).1 ++
          Event.spawnInbound :: (outboundRelay w w.remoteReads 0).1 ++
          (match (outboundRelay w w.remoteReads 0).2 with
            | Exit.returned => [Event.clientClose StatusCode.StatusNormalClosure,
                                Event.clientClose StatusCode.StatusInternalError]
            | Exit.panicked => [Event.clientClose StatusCode.StatusInternalError]
            | Exit.blocked => []),
        inboundRelay codec w w.clientReads 0 0, (outboundRelay w w.remoteReads 0).2⟩ := by
  cases ho : (outboundRelay w w.remoteReads 0).2 <;>
    simp [Handler, handlerBody, streaming, hacc, hi, hp, hd, hs, ho]

/-- The handler goroutine either never reaches the relay (then none of its
calls is a relay call) or its calls are a start-up part without relay calls and
closes, the start of the goroutine, the outbound loop, and the closes. -/
theorem Handler_shape (codec : Codec) (w : World) :
    ((w.acceptOk && startupOk codec w) = false
      ∧ (Handler codec w).main.any isRelayEvent = false ∧ (Handler codec w).inbound = [])
    ∨ (w.acceptOk && startupOk codec w) = true ∧
      ∃ A : List Event, A.any isRelayEvent = false ∧ closeCodes A = [] ∧
        Handler codec w
          = ⟨A ++ Event.spawnInbound :: (outboundRelay w w.remoteReads 0).1 ++
              (match (outboundRelay w w.remoteReads 0).2 with
                | Exit.returned => [Event.clientClose StatusCode.StatusNormalClosure,
                                    Event.clientClose StatusCode.StatusInternalError]
                | Exit.panicked => [Event.clientClose StatusCode.StatusInternalError]
                | Exit.blocked => []),
            inboundRelay codec w w.clientReads 0 0, (outboundRelay w w.remoteReads 0).2⟩ := by
  by_cases hacc : w.acceptOk = true
  · cases hi : w.init with
    | none =>
      left; rw [Handler_read_pending codec w hacc hi]
      exact ⟨by simp [startupOk, hi], rfl, rfl⟩
    | some r =>
      cases r with
      | err =>
        left; rw [Handler_read_failed codec w hacc hi]
        exact ⟨by simp [startupOk, hi], rfl, rfl⟩
      | msg data =>
        cases hp : codec.unmarshalInit data with
        | none =>
          left; rw [Handler_parse_failed codec w data hacc hi hp]
          exact ⟨by simp [startupOk, hi, hp], rfl, rfl⟩
        | some im =>
          obtain ⟨hd1, -, -, hd4, -, -, -⟩ :=
            Dial_events w.dialEnv im.User im.Host im.Port w.keyPath
          obtain ⟨hs1, -, -, hs4, -, -, -⟩ := Shell_events w.shellEnv im.Cols im.Rows
          by_cases hd : (Dial w.dialEnv im.User im.Host im.Port w.keyPath).2 = true
          · by_cases hs : (Shell w.shellEnv im.Cols im.Rows).2.err = true
            · left
              rw [Handler_shell_failed codec w data im hacc hi hp hd hs]
              simp [List.any_append, hd4, hs4, isRelayEvent, startupOk, hi, hp, hs]
            · have hs0 : (Shell w.shellEnv im.Cols im.Rows).2.err = false := by simpa using hs
              right
              refine ⟨by simp [startupOk, hacc, hi, hp, hd, hs0], Event.accept true :: Event.clientRead (some (Recv.msg data)) ::
                Event.dial im.User im.Host im.Port w.keyPath ::
                (Dial w.dialEnv im.User im.Host im.Port w.keyPath).1 ++
                Event.shell im.Cols im.Rows :: (Shell w.shellEnv im.Cols im.Rows).1, ?_, ?_, ?_⟩
              · simp [List.any_append, hd4, hs4, isRelayEvent]
              · simp [closeCodes_append, closeCodes_cons, closeCode, hd1, hs1]
              · rw [Handler_streaming codec w data im hacc hi hp hd hs0]
          · have hd0 : (Dial w.dialEnv im.User im.Host im.Port w.keyPath).2 = false := by
              simpa using hd
            left
            rw [Handler_dial_failed codec w data im hacc hi hp hd0]
            simp [List.any_append, hd4, isRelayEvent, startupOk, hi, hp, hd0]
  · have hacc0 : w.acceptOk = false := by simpa using hacc
    left
    simp [Handler, hacc0, isRelayEvent]

theorem Handler_main_withClientReads (codec : Codec) (w : World) (reads : List Recv) :
    (Handler codec (w.withClientReads reads)).main = (Handler codec w).main
    ∧ (Handler codec (w.withClientReads reads)).exit = (Handler codec w).exit := by
  have h : outboundRelay (w.withClientReads reads) (w.withClientReads reads).remoteReads 0
      = outboundRelay w w.remoteReads 0 := outboundRelay_withClientReads w reads w.remoteReads 0
  by_cases hacc : w.acceptOk = true
  · cases hi : w.init with
    | none =>
      rw [Handler_read_pending codec w hacc hi,
        Handler_read_pending codec (w.withClientReads reads) hacc hi]
      exact ⟨rfl, rfl⟩
    | some r =>
      cases r with
      | err =>
        rw [Handler_read_failed codec w hacc hi,
          Handler_read_failed codec (w.withClientReads reads) hacc hi]
        exact ⟨rfl, rfl⟩
      | msg data =>
        cases hp : codec.unmarshalInit data with
        | none =>
          rw [Handler_parse_failed codec w data hacc hi hp,
            Handler_parse_failed codec (w.withClientReads reads) data hacc hi hp]
          exact ⟨rfl, rfl⟩
        | some im =>
          by_cases hd : (Dial w.dialEnv im.User im.Host im.Port w.keyPath).2 = true
          · by_cases hs : (Shell w.shellEnv im.Cols im.Rows).2.err = true
            · rw [Handler_shell_failed codec w data im hacc hi hp hd hs,
                Handler_shell_failed codec (w.withClientReads reads) data im hacc hi hp hd hs]
              exact ⟨rfl, rfl⟩
            · have hs0 : (Shell w.shellEnv im.Cols im.Rows).2.err = false := by simpa using hs
              rw [Handler_streaming codec w data im hacc hi hp hd hs0,
                Handler_streaming codec (w.withClientReads reads) data im hacc hi hp hd hs0, h]
              exact ⟨rfl, rfl⟩
          · have hd0 : (Dial w.dialEnv im.User im.Host im.Port w.keyPath).2 = false := by
              simpa using hd
            rw [Handler_dial_failed codec w data im hacc hi hp hd0,
              Handler_dial_failed codec (w.withClientReads reads) data im hacc hi hp hd0]
            exact ⟨rfl, rfl⟩
  · have hacc0 : w.acceptOk = false := by simpa using hacc
    have hacc1 : (w.withClientReads reads).acceptOk = false := hacc0
    simp [Handler, hacc0, hacc1]

/-! ## Inbound relay (C1, C2) -/

/-- Claim C1.  Inbound relay: whatever the writes and resize calls return (so in
particular when every write succeeds), the payloads written to the remote
stream are exactly the messages read before the first client read error whose
first byte is not `{` (the empty message included), in the order received, one
write per message and unmodified; a message starting with `{` causes no write.
In a run of the handler these are all the writes to the remote stream: they are
made once start-up has succeeded, and nothing else writes to it. -/
theorem inbound_forwards_raw_messages (codec : Codec) (w : World) (reads : List Recv)
    (nw nr : Nat) :
    remoteWrites (inboundRelay codec w reads nw nr)
      = (messagesBeforeError reads).filter (fun m => m.head? != some 123)
    ∧ remoteWrites (Handler codec w).events
      = if (w.acceptOk && startupOk codec w) = true then
          (messagesBeforeError w.clientReads).filter (fun m => m.head? != some 123)
        else [] := by
  refine ⟨inboundRelay_remoteWrites codec w reads nw nr, ?_⟩
  rcases Handler_shape codec w with ⟨hno, hm, hin⟩ | ⟨hyes, A, hA, -, hH⟩
  · rw [hno, Run.events, hin, List.append_nil, (no_relay_calls _ hm).1]
    simp
  · have hA1 := (no_relay_calls A hA).1
    have hO := (outboundRelay_no_inbound_calls w w.remoteReads 0).1
    have hI := inboundRelay_remoteWrites codec w w.clientReads 0 0
    rw [hyes, hH]
    simp only [Run.events, remoteWrites_append, hA1, hI, if_true, List.nil_append]
    have hcons : ∀ t : List Event, remoteWrites (Event.spawnInbound :: t) = remoteWrites t :=
      fun t => by simp [remoteWrites]
    rw [hcons, hO]
    cases (outboundRelay w w.remoteReads 0).2 <;> simp [remoteWrites]

/-- Claim C2, refuted as stated.  The frame `{"type":"resize","cols":"120","rows":40}`
begins with `{`, parses as a JSON object and has type exactly `resize`, yet the
inbound relay makes no resize call for it: `json.Unmarshal` returns an error
because `cols` is not an integer.  The same holds for `"cols":1e2`. -/
theorem string_cols_resize_frame_is_ignored :
    stringColsFrame.head? = some 123
    ∧ isResizeObject stringColsFrame = true
    ∧ inboundRelay goJson (calmWorld none [] []) [Recv.msg stringColsFrame] 0 0
        = [Event.clientRead (some (Recv.msg stringColsFrame)), Event.clientRead none]
    ∧ isResizeObject (ascii "\x7b\"type\":\"resize\",\"cols\":1e2,\"rows\":40\x7d") = true
    ∧ resizes (inboundRelay goJson (calmWorld none [] [])
        [Recv.msg (ascii "\x7b\"type\":\"resize\",\"cols\":1e2,\"rows\":40\x7d")] 0 0) = [] := by
  decide

/-- Claim C2, amended.  Inbound relay, with `encoding/json`: whatever each
`WindowChange` call returns, the resize calls are, in order, one per message
read before the first client read error that begins with `{`, parses as a JSON
object, has type exactly `resize` and whose `type`, `cols` and `rows` members
are well typed (`cols` and `rows` integers), each with height = the frame's
rows and width = the frame's cols as written in the JSON text (member names
compared without regard to case, the last of repeated members counting, 0
when absent); every other
message causes no resize; every message before the first read error is read
(the relay goes on after every control frame); in a run of the handler these
are all the resize calls; the frame `{"type":"resize","cols":120,"rows":40}`
resizes to 40 rows by 120 columns and is followed by the next read, and the
frame with `"cols":"120"` asks for no resize. -/
theorem inbound_resizes_per_well_typed_resize_frame (w : World) (reads : List Recv)
    (nw nr : Nat) :
    resizes (inboundRelay goJson w reads nw nr)
        = (messagesBeforeError reads).filterMap frameResize
    ∧ received (inboundRelay goJson w reads nw nr) = messagesBeforeError reads
    ∧ resizes (Handler goJson w).events
        = (if (w.acceptOk && startupOk goJson w) = true then
            (messagesBeforeError w.clientReads).filterMap frameResize
          else [])
    ∧ frameResize (ascii "\x7b\"type\":\"resize\",\"cols\":120,\"rows\":40\x7d") = some (40, 120)
    ∧ inboundRelay goJson w
        [Recv.msg (ascii "\x7b\"type\":\"resize\",\"cols\":120,\"rows\":40\x7d")] nw nr
        = [Event.clientRead
            (some (Recv.msg (ascii "\x7b\"type\":\"resize\",\"cols\":120,\"rows\":40\x7d"))),
           Event.windowChange 40 120 (w.windowChangeOk nr),
           Event.clientRead none]
    ∧ frameResize stringColsFrame = none := by
  have hf : controlFrameCall goJson = frameResize := funext controlFrameCall_goJson
  refine ⟨?_, inboundRelay_received goJson w reads nw nr, ?_, by decide, ?_, by decide⟩
  · rw [inboundRelay_resizes, hf]
  · rcases Handler_shape goJson w with ⟨hno, hm, hin⟩ | ⟨hyes, A, hA, -, hH⟩
    · rw [hno, Run.events, hin, List.append_nil, (no_relay_calls _ hm).2.1]
      simp
    · have hA1 := (no_relay_calls A hA).2.1
      have hO := (outboundRelay_no_inbound_calls w w.remoteReads 0).2
      have hI := inboundRelay_resizes goJson w w.clientReads 0 0
      rw [hf] at hI
      rw [hyes, hH]
      simp only [Run.events, resizes_append, hA1, hI, if_true, List.nil_append]
      have hcons : ∀ t : List Event, resizes (Event.spawnInbound :: t) = resizes t :=
        fun t => by simp [resizes]
      rw [hcons, hO]
      cases (outboundRelay w w.remoteReads 0).2 <;> simp [resizes]
  · have hc : isControl
        (ascii "\x7b\"type\":\"resize\",\"cols\":120,\"rows\":40\x7d") = true := by
      decide
    simp only [inboundRelay, hc, goJson_resize_example, if_true]

/-! ## Outbound relay (C3) -/

/-- Claim C3, refuted as stated.  When a read of the remote stream returns the
two bytes `hi` together with an error, the outbound loop stops without sending
anything: the bytes returned by the reads are `hi`, the payloads sent to the
client are none.  The same holds in the run of the whole handler in which
start-up succeeds and that read is the first one. -/
theorem outbound_drops_bytes_returned_with_error :
    remoteBytes (outboundRelay (calmWorld none [] []) [⟨[104, 105], true⟩] 0).1 = [[104, 105]]
    ∧ clientPayloads (outboundRelay (calmWorld none [] []) [⟨[104, 105], true⟩] 0).1 = []
    ∧ (outboundRelay (calmWorld none [] []) [⟨[104, 105], true⟩] 0).2 = Exit.returned
    ∧ remoteBytes
        (Handler goJson (calmWorld (some (Recv.msg scenarioHandshake)) [] [⟨[104, 105], true⟩])).events
        = [[104, 105]]
    ∧ clientPayloads
        (Handler goJson (calmWorld (some (Recv.msg scenarioHandshake)) [] [⟨[104, 105], true⟩])).events
        = [] := by
  decide

/-- Claim C3, amended.  Outbound relay: for every sequence of results returned by
reads of the remote byte-stream into the 4096-byte buffer, the payloads sent
to the client are, in send order, exactly the chunks returned by the reads
before the first read that returns an error, one payload per read and
unmodified, so their concatenation is the concatenation of those chunks (no
byte of them dropped, duplicated or reordered); what a read returns together
with an error is not sent; every payload is at most 4096 bytes long; and in a
run of the handler these are all the payloads sent to the client. -/
theorem outbound_forwards_reads_before_error (codec : Codec) (w : World)
    (reads : List ReadResult) (k : Nat)
    (h : ∀ r ∈ reads, r.data.length ≤ bufSize)
    (hw : ∀ r ∈ w.remoteReads, r.data.length ≤ bufSize) :
    clientPayloads (outboundRelay w reads k).1 = chunksBeforeError reads
    ∧ (clientPayloads (outboundRelay w reads k).1).flatten = (chunksBeforeError reads).flatten
    ∧ (∀ p ∈ clientPayloads (outboundRelay w reads k).1, p.length ≤ 4096)
    ∧ clientPayloads (Handler codec w).events
        = (if (w.acceptOk && startupOk codec w) = true then chunksBeforeError w.remoteReads
          else []) := by
  have h1 : clientPayloads (outboundRelay w reads k).1 = chunksBeforeError reads := by
    rw [outbound_payloads, forwardedReads_of_bounded reads h]
  refine ⟨h1, by rw [h1], ?_, ?_⟩
  · rw [outbound_payloads]
    exact forwardedReads_length reads
  · rcases Handler_shape codec w with ⟨hno, hm, hin⟩ | ⟨hyes, A, hA, -, hH⟩
    · rw [hno, Run.events, hin, List.append_nil, (no_relay_calls _ hm).2.2]
      simp
    · have hA1 := (no_relay_calls A hA).2.2
      have hO : clientPayloads (outboundRelay w w.remoteReads 0).1
          = chunksBeforeError w.remoteReads := by
        rw [outbound_payloads, forwardedReads_of_bounded _ hw]
      have hI := inboundRelay_no_client_write codec w w.clientReads 0 0
      rw [hyes, hH]
      simp only [Run.events, clientPayloads_append, hA1, hI, if_true, List.nil_append,
        List.append_nil]
      have hcons : ∀ t : List Event,
          clientPayloads (Event.spawnInbound :: t) = clientPayloads t :=
        fun t => by simp [clientPayloads]
      rw [hcons, hO]
      cases (outboundRelay w w.remoteReads 0).2 <;> simp [clientPayloads]

theorem outbound_forwards_reads_before_error_witness :
    (∀ r ∈ [(⟨[108, 115], false⟩ : ReadResult), ⟨[104, 105], true⟩], r.data.length ≤ bufSize)
    ∧ clientPayloads
        (outboundRelay
          (calmWorld (some (Recv.msg scenarioHandshake)) []
            [⟨[108, 115], false⟩, ⟨[104, 105], true⟩])
          [⟨[108, 115], false⟩, ⟨[104, 105], true⟩] 0).1
        = chunksBeforeError [⟨[108, 115], false⟩, ⟨[104, 105], true⟩]
    ∧ chunksBeforeError [⟨[108, 115], false⟩, ⟨[104, 105], true⟩] = [[108, 115]] :=
  ⟨by decide,
    (outbound_forwards_reads_before_error goJson
      (calmWorld (some (Recv.msg scenarioHandshake)) []
        [⟨[108, 115], false⟩, ⟨[104, 105], true⟩])
      [⟨[108, 115], false⟩, ⟨[104, 105], true⟩] 0 (by decide) (by decide)).1,
    by decide⟩

/-! ## Handshake (C4) -/

/-- Claim C4, refuted as stated.  A first message `{}`, in which every
Connection Target field is missing, is not rejected: `sshc.Dial` is invoked,
with empty user and host and port 0. -/
theorem empty_object_handshake_reaches_dial :
    Event.dial [] [] 0 (ascii "/keys/id_ed25519")
      ∈ (Handler goJson (calmWorld (some (Recv.msg (ascii "\x7b\x7d"))) [] [])).main := by
  decide

/-- Claim C4, amended.  After the connection is accepted: when the first message
cannot be read or `json.Unmarshal` rejects it, the session is aborted (the
handler returns, the only close is the internal-error one, no relay event
occurs) and `sshc.Dial` is never invoked; a first message that `json.Unmarshal`
accepts always reaches `sshc.Dial`, with the decoded fields unchecked; with
`encoding/json`, `{}` is accepted with every field zero, and a field of the
wrong JSON type, as in `{"host":5}`, is rejected. -/
theorem rejected_handshake_never_dials (codec : Codec) (w : World)
    (hacc : w.acceptOk = true) :
    (handshakeRejected codec w = true →
      (Handler codec w).events.any isDial = false
      ∧ (Handler codec w).events.any isRelayEvent = false
      ∧ (Handler codec w).exit = Exit.returned
      ∧ closeCodes (Handler codec w).events = [StatusCode.StatusInternalError])
    ∧ (∀ data im, w.init = some (Recv.msg data) → codec.unmarshalInit data = some im →
        Event.dial im.User im.Host im.Port w.keyPath ∈ (Handler codec w).main)
    ∧ goJson.unmarshalInit (ascii "\x7b\x7d") = some ⟨[], 0, [], 0, 0⟩
    ∧ goJson.unmarshalInit (ascii "\x7b\"host\":5\x7d") = none := by
  refine ⟨?_, ?_, by decide, by decide⟩
  · intro hrej
    unfold handshakeRejected at hrej
    cases hi : w.init with
    | none => simp [hi] at hrej
    | some r =>
      cases r with
      | err =>
        rw [Handler_read_failed codec w hacc hi]
        exact ⟨rfl, rfl, rfl, rfl⟩
      | msg data =>
        cases hp : codec.unmarshalInit data with
        | some im => simp [hi, hp] at hrej
        | none =>
          rw [Handler_parse_failed codec w data hacc hi hp]
          exact ⟨rfl, rfl, rfl, rfl⟩
  · intro data im hi hp
    by_cases hd : (Dial w.dialEnv im.User im.Host im.Port w.keyPath).2 = true
    · by_cases hs : (Shell w.shellEnv im.Cols im.Rows).2.err = true
      · rw [Handler_shell_failed codec w data im hacc hi hp hd hs]; simp
      · rw [Handler_streaming codec w data im hacc hi hp hd (by simpa using hs)]; simp
    · rw [Handler_dial_failed codec w data im hacc hi hp (by simpa using hd)]; simp

theorem rejected_handshake_never_dials_witness :
    (calmWorld (some (Recv.msg (ascii "\x7b\"host\":5\x7d"))) [] []).acceptOk = true
    ∧ handshakeRejected goJson (calmWorld (some (Recv.msg (ascii "\x7b\"host\":5\x7d"))) [] []) = true
    ∧ (Handler goJson (calmWorld (some (Recv.msg (ascii "\x7b\"host\":5\x7d"))) [] [])).events.any
        isDial = false
    ∧ Event.dial (ascii "dev") (ascii "10.0.0.5") 22 (ascii "/keys/id_ed25519")
        ∈ (Handler goJson (calmWorld (some (Recv.msg scenarioHandshake)) [] [])).main :=
  ⟨rfl, by decide,
    ((rejected_handshake_never_dials goJson
      (calmWorld (some (Recv.msg (ascii "\x7b\"host\":5\x7d"))) [] []) rfl).1 (by decide)).1,
    (rejected_handshake_never_dials goJson
      (calmWorld (some (Recv.msg scenarioHandshake)) [] []) rfl).2.1 scenarioHandshake
      ⟨ascii "10.0.0.5", 22, ascii "dev", 80, 24⟩ rfl (by decide)⟩

/-! ## Start-up (C5) -/

/-- Claim C5.  After the connection is accepted: for a handshake that is read and
parsed, the relay loops start (a read or write on the remote byte-stream or a
second read of the client connection occurs) if and only if `Dial` and then
`Shell` return without error; when the handshake read, the parse, `Dial` or
`Shell` fails, the handler returns having made no relay call and a single read
of the client connection, the only close of the client connection carries the
internal-error status, no `Dial` or `Shell` call follows a failed read or
parse, and no `Shell` call follows a failed `Dial`; when all four succeed, the
outbound loop makes its first read of the remote stream and the inbound
goroutine its first read of the client connection. -/
theorem relay_starts_iff_dial_and_shell_succeed (codec : Codec) (w : World)
    (hacc : w.acceptOk = true) :
    (∀ data im, w.init = some (Recv.msg data) → codec.unmarshalInit data = some im →
      (relayStarted (Handler codec w) = true ↔
        ((Dial w.dialEnv im.User im.Host im.Port w.keyPath).2 = true
          ∧ (Shell w.shellEnv im.Cols im.Rows).2.err = false)))
    ∧ ((handshakeRejected codec w || dialFailed codec w || shellFailed codec w) = true →
        (Handler codec w).events.any isRelayEvent = false
        ∧ ((Handler codec w).events.filter isClientRead).length = 1
        ∧ closeCodes (Handler codec w).events = [StatusCode.StatusInternalError]
        ∧ (Handler codec w).exit = Exit.returned)
    ∧ (handshakeRejected codec w = true →
        (Handler codec w).events.any isDial = false
        ∧ (Handler codec w).events.any isShell = false)
    ∧ (dialFailed codec w = true → (Handler codec w).events.any isShell = false)
    ∧ (startupOk codec w = true →
        (∃ res, Event.remoteRead bufSize res ∈ (Handler codec w).main)
        ∧ (∃ res, (Handler codec w).inbound.head? = some (Event.clientRead res))) := by
  have hD := fun (im : initMsg) => Dial_events w.dialEnv im.User im.Host im.Port w.keyPath
  have hS := fun (im : initMsg) => Shell_events w.shellEnv im.Cols im.Rows
  refine ⟨?_, ?_, ?_, ?_, ?_⟩
  · intro data im hi hp
    by_cases hd : (Dial w.dialEnv im.User im.Host im.Port w.keyPath).2 = true
    · by_cases hs : (Shell w.shellEnv im.Cols im.Rows).2.err = true
      · rw [Handler_shell_failed codec w data im hacc hi hp hd hs]
        obtain ⟨-, -, -, -, hd5, -, hd7⟩ := hD im
        obtain ⟨-, -, -, -, hs5, -, hs7⟩ := hS im
        simp [relayStarted, Run.events, List.any_append, List.filter_append, List.filter_cons,
          hd5, hd7, hs5, hs7, isRemoteIO, isClientRead, hs, hd]
      · have hs0 : (Shell w.shellEnv im.Cols im.Rows).2.err = false := by simpa using hs
        rw [Handler_streaming codec w data im hacc hi hp hd hs0]
        obtain ⟨res, t, ht⟩ := outboundRelay_starts_with_read w w.remoteReads 0
        simp [relayStarted, Run.events, List.any_append, ht, isRemoteIO, hd, hs0]
    · have hd0 : (Dial w.dialEnv im.User im.Host im.Port w.keyPath).2 = false := by simpa using hd
      rw [Handler_dial_failed codec w data im hacc hi hp hd0]
      obtain ⟨-, -, -, -, hd5, -, hd7⟩ := hD im
      simp [relayStarted, Run.events, List.any_append, List.filter_append, List.filter_cons,
        hd5, hd7, isRemoteIO, isClientRead, hd0]
  · intro hfail
    unfold handshakeRejected dialFailed shellFailed at hfail
    cases hi : w.init with
    | none => simp [hi] at hfail
    | some r =>
      cases r with
      | err =>
        rw [Handler_read_failed codec w hacc hi]
        exact ⟨rfl, rfl, rfl, rfl⟩
      | msg data =>
        cases hp : codec.unmarshalInit data with
        | none =>
          rw [Handler_parse_failed codec w data hacc hi hp]
          exact ⟨rfl, rfl, rfl, rfl⟩
        | some im =>
          obtain ⟨hd1, -, -, hd4, -, -, hd7⟩ := hD im
          obtain ⟨hs1, -, -, hs4, -, -, hs7⟩ := hS im
          by_cases hd : (Dial w.dialEnv im.User im.Host im.Port w.keyPath).2 = true
          · have hs : (Shell w.shellEnv im.Cols im.Rows).2.err = true := by
              simpa [hi, hp, hd] using hfail
            rw [Handler_shell_failed codec w data im hacc hi hp hd hs]
            simp [Run.events, List.any_append, List.filter_append, List.filter_cons,
              closeCodes_append, closeCodes_cons, closeCodes_nil, closeCode, hd1, hd4, hd7, hs1, hs4, hs7,
              isRelayEvent, isClientRead]
          · have hd0 : (Dial w.dialEnv im.User im.Host im.Port w.keyPath).2 = false := by
              simpa using hd
            rw [Handler_dial_failed codec w data im hacc hi hp hd0]
            simp [Run.events, List.any_append, List.filter_append, List.filter_cons,
              closeCodes_append, closeCodes_cons, closeCodes_nil, closeCode, hd1, hd4, hd7,
              isRelayEvent, isClientRead]
  · intro hrej
    unfold handshakeRejected at hrej
    cases hi : w.init with
    | none => simp [hi] at hrej
    | some r =>
      cases r with
      | err =>
        rw [Handler_read_failed codec w hacc hi]
        exact ⟨rfl, rfl⟩
      | msg data =>
        cases hp : codec.unmarshalInit data with
        | some im => simp [hi, hp] at hrej
        | none =>
          rw [Handler_parse_failed codec w data hacc hi hp]
          exact ⟨rfl, rfl⟩
  · intro hfail
    unfold dialFailed at hfail
    cases hi : w.init with
    | none => simp [hi] at hfail
    | some r =>
      cases r with
      | err => simp [hi] at hfail
      | msg data =>
        cases hp : codec.unmarshalInit data with
        | none => simp [hi, hp] at hfail
        | some im =>
          have hd0 : (Dial w.dialEnv im.User im.Host im.Port w.keyPath).2 = false := by
            simpa [hi, hp] using hfail
          rw [Handler_dial_failed codec w data im hacc hi hp hd0]
          obtain ⟨-, -, hd3, -, -, -, -⟩ := hD im
          simp [Run.events, List.any_append, hd3, isShell]
  · intro hok
    rcases Handler_shape codec w with ⟨hno, -, -⟩ | ⟨-, A, -, -, hH⟩
    · simp [hacc, hok] at hno
    · rw [hH]
      obtain ⟨res, t, ht⟩ := outboundRelay_starts_with_read w w.remoteReads 0
      refine ⟨⟨res, by simp [ht]⟩, ?_⟩
      cases hc : w.clientReads with
      | nil => exact ⟨none, rfl⟩
      | cons r rest =>
        cases r with
        | err => exact ⟨some Recv.err, rfl⟩
        | msg m => exact ⟨some (Recv.msg m), by simp [inboundRelay]⟩

theorem relay_starts_iff_dial_and_shell_succeed_witness :
    (calmWorld (some (Recv.msg scenarioHandshake)) [] []).acceptOk = true
    ∧ relayStarted (Handler goJson (calmWorld (some (Recv.msg scenarioHandshake)) [] [])) = true
    ∧ dialFailsWorld.acceptOk = true
    ∧ closeCodes (Handler goJson dialFailsWorld).events = [StatusCode.StatusInternalError]
    ∧ (Handler goJson dialFailsWorld).events.any isShell = false :=
  ⟨rfl,
    ((relay_starts_iff_dial_and_shell_succeed goJson
      (calmWorld (some (Recv.msg scenarioHandshake)) [] []) rfl).1 scenarioHandshake
      ⟨ascii "10.0.0.5", 22, ascii "dev", 80, 24⟩ rfl (by decide)).2 ⟨rfl, rfl⟩,
    rfl,
    ((relay_starts_iff_dial_and_shell_succeed goJson dialFailsWorld rfl).2.1 (by decide)).2.2.1,
    (relay_starts_iff_dial_and_shell_succeed goJson dialFailsWorld rfl).2.2.2.1 (by decide)⟩

/-! ## Closing (C6) -/

/-- Claim C6, refuted as stated.  In the end-of-stream scenario `Dial` and `Shell`
succeed and the handler returns; it has then issued two closes on the client
connection (normal closure, then the deferred internal-error close) and no
close of any part of the remote session. -/
theorem end_of_stream_closes_client_twice_and_remote_never :
    Event.sshDial (ascii "dev") (ascii "10.0.0.5") 22 true ∈ (Handler goJson endOfStreamWorld).main
    ∧ (Handler goJson endOfStreamWorld).exit = Exit.returned
    ∧ closeCodes (Handler goJson endOfStreamWorld).events
        = [StatusCode.StatusNormalClosure, StatusCode.StatusInternalError]
    ∧ (Handler goJson endOfStreamWorld).events.any isRemoteClose = false := by
  decide

/-- Claim C6, amended.  On every path by which the handler goroutine ends after
the connection was accepted, the deferred internal-error close is the last
close of the client connection; it is the only one unless start-up succeeded
and the outbound loop stopped on a remote read error, in which case exactly
one normal-closure close precedes it (two close calls).  No part of the remote
session is closed on any path.  What the client reads of the inbound relay
return (a client disconnect included) changes neither the calls of the handler
goroutine nor whether it ends. -/
theorem handler_close_discipline (codec : Codec) (w : World) (hacc : w.acceptOk = true)
    (hterm : (Handler codec w).exit ≠ Exit.blocked) :
    (closeCodes (Handler codec w).events = [StatusCode.StatusInternalError]
      ∨ closeCodes (Handler codec w).events
          = [StatusCode.StatusNormalClosure, StatusCode.StatusInternalError])
    ∧ (closeCodes (Handler codec w).events
          = [StatusCode.StatusNormalClosure, StatusCode.StatusInternalError]
        ↔ (startupOk codec w = true ∧ (Handler codec w).exit = Exit.returned))
    ∧ (Handler codec w).events.any isRemoteClose = false
    ∧ (∀ reads : List Recv,
        (Handler codec (w.withClientReads reads)).main = (Handler codec w).main
        ∧ (Handler codec (w.withClientReads reads)).exit = (Handler codec w).exit) := by
  have hlast : ∀ reads : List Recv,
      (Handler codec (w.withClientReads reads)).main = (Handler codec w).main
      ∧ (Handler codec (w.withClientReads reads)).exit = (Handler codec w).exit :=
    fun reads => Handler_main_withClientReads codec w reads
  refine ⟨?_, ?_, ?_, hlast⟩ <;> clear hlast
  all_goals
    cases hi : w.init with
    | none => rw [Handler_read_pending codec w hacc hi] at hterm; exact absurd rfl hterm
    | some r =>
      cases r with
      | err =>
        rw [Handler_read_failed codec w hacc hi]
        first
          | exact Or.inl rfl
          | rfl
          | simp [startupOk, hi, Run.events, closeCodes, closeCode]
      | msg data =>
        cases hp : codec.unmarshalInit data with
        | none =>
          rw [Handler_parse_failed codec w data hacc hi hp]
          first
            | exact Or.inl rfl
            | rfl
            | simp [startupOk, hi, hp, Run.events, closeCodes, closeCode]
        | some im =>
          obtain ⟨hd1, -, -, -, -, hd6, -⟩ :=
            Dial_events w.dialEnv im.User im.Host im.Port w.keyPath
          obtain ⟨hs1, -, -, -, -, hs6, -⟩ := Shell_events w.shellEnv im.Cols im.Rows
          obtain ⟨hi1, hi2⟩ := inboundRelay_no_close codec w w.clientReads 0 0
          obtain ⟨ho1, ho2⟩ := outboundRelay_no_close w w.remoteReads 0
          by_cases hd : (Dial w.dialEnv im.User im.Host im.Port w.keyPath).2 = true
          · by_cases hs : (Shell w.shellEnv im.Cols im.Rows).2.err = true
            · rw [Handler_shell_failed codec w data im hacc hi hp hd hs]
              simp [Run.events, List.any_append, closeCodes_append, closeCodes_cons,
                closeCodes_nil, closeCode, hd1, hd6, hs1, hs6, isRemoteClose, startupOk, hi, hp,
                hd, hs]
            · have hs0 : (Shell w.shellEnv im.Cols im.Rows).2.err = false := by simpa using hs
              rw [Handler_streaming codec w data im hacc hi hp hd hs0] at hterm ⊢
              cases ho : (outboundRelay w w.remoteReads 0).2 with
              | blocked => simp [ho] at hterm
              | returned =>
                simp [Run.events, List.any_append, closeCodes_append, closeCodes_cons,
                  closeCodes_nil, closeCode, hd1, hd6, hs1, hs6, hi1, hi2, ho1, ho2,
                  isRemoteClose, startupOk, hi, hp, hd, hs0]
              | panicked =>
                simp [Run.events, List.any_append, closeCodes_append, closeCodes_cons,
                  closeCodes_nil, closeCode, hd1, hd6, hs1, hs6, hi1, hi2, ho1, ho2,
                  isRemoteClose, startupOk, hi, hp, hd, hs0]
          · have hd0 : (Dial w.dialEnv im.User im.Host im.Port w.keyPath).2 = false := by
              simpa using hd
            rw [Handler_dial_failed codec w data im hacc hi hp hd0]
            simp [Run.events, List.any_append, closeCodes_append, closeCodes_cons,
              closeCodes_nil, closeCode, hd1, hd6, isRemoteClose, startupOk, hi, hp, hd0]

theorem handler_close_discipline_witness :
    endOfStreamWorld.acceptOk = true
    ∧ (Handler goJson endOfStreamWorld).exit ≠ Exit.blocked
    ∧ (closeCodes (Handler goJson endOfStreamWorld).events
          = [StatusCode.StatusNormalClosure, StatusCode.StatusInternalError]
        ↔ (startupOk goJson endOfStreamWorld = true
            ∧ (Handler goJson endOfStreamWorld).exit = Exit.returned))
    ∧ (Handler goJson endOfStreamWorld).events.any isRemoteClose = false :=
  ⟨rfl, by decide,
    (handler_close_discipline goJson endOfStreamWorld rfl (by decide)).2.1,
    (handler_close_discipline goJson endOfStreamWorld rfl (by decide)).2.2.1⟩

/-! ## Failures during the relay (C7) -/

/-- Claim C7, refuted as stated.  With every write failing, the inbound relay
goes on reading and writing after a failed write to the remote stream, and the
outbound relay goes on reading and writing after a failed write to the client;
neither triggers the cancellation.  And in the end-of-stream scenario the
failed remote read is not followed by a cancellation either. -/
theorem failed_writes_do_not_stop_the_relays :
    inboundRelay goJson (failingWritesWorld [] []) [Recv.msg [97], Recv.msg [98]] 0 0
      = [Event.clientRead (some (Recv.msg [97])), Event.remoteWrite [97] false,
         Event.clientRead (some (Recv.msg [98])), Event.remoteWrite [98] false,
         Event.clientRead none]
    ∧ outboundRelay (failingWritesWorld [] []) [⟨[97], false⟩, ⟨[98], false⟩] 0
      = ([Event.remoteRead 4096 (some ⟨[97], false⟩), Event.clientWrite [97] false,
          Event.remoteRead 4096 (some ⟨[98], false⟩), Event.clientWrite [98] false,
          Event.remoteRead 4096 none], Exit.blocked)
    ∧ Event.remoteRead 4096 (some ⟨[], true⟩) ∈ (Handler goJson endOfStreamWorld).main
    ∧ Event.cancel ∉ (Handler goJson endOfStreamWorld).events := by
  decide

/-- Claim C7, amended.  A failed client read triggers the shared cancellation and
is the last thing the inbound relay does before it; a failed remote read is the
last call of the outbound loop, which is left (the handler goroutine goes on to
close the client connection and never triggers the cancellation itself); what
the writes to the remote stream, the writes to the client and the resize calls
return has no effect on the calls either relay makes. -/
theorem relay_failure_handling (codec : Codec) (w w2 : World) :
    (∀ (msgs : List Bytes) (rest : List Recv) (nw nr : Nat),
      ∃ t, inboundRelay codec w (msgs.map Recv.msg ++ Recv.err :: rest) nw nr
          = t ++ [Event.clientRead (some Recv.err), Event.cancel]
        ∧ Event.cancel ∉ t)
    ∧ (∀ (reads : List ReadResult) (k : Nat) (r : ReadResult), r.err = true →
        Event.remoteRead bufSize (some r) ∈ (outboundRelay w reads k).1 →
        (outboundRelay w reads k).1.getLast? = some (Event.remoteRead bufSize (some r))
        ∧ (outboundRelay w reads k).2 = Exit.returned)
    ∧ (∀ (reads : List Recv) (nw nr nw2 nr2 : Nat),
        (inboundRelay codec w reads nw nr).map Event.call
          = (inboundRelay codec w2 reads nw2 nr2).map Event.call)
    ∧ (∀ (reads : List ReadResult) (k k2 : Nat),
        (outboundRelay w reads k).1.map Event.call = (outboundRelay w2 reads k2).1.map Event.call
        ∧ (outboundRelay w reads k).2 = (outboundRelay w2 reads k2).2)
    ∧ Event.cancel ∉ (Handler codec w).main := by
  refine ⟨inboundRelay_client_read_error codec w, ?_, inboundRelay_calls codec w w2,
    outboundRelay_calls w w2, ?_⟩
  · intro reads k r hr hmem
    obtain ⟨pre, hpre, hex⟩ := outboundRelay_error_read_last w reads k r hr hmem
    exact ⟨by simp [hpre], hex⟩
  · rcases Handler_shape codec w with ⟨-, h, -⟩ | ⟨-, A, hA, -, hH⟩
    · exact not_mem_of_any_isRelayEvent h Event.cancel rfl
    · rw [hH]
      have h1 := not_mem_of_any_isRelayEvent hA Event.cancel rfl
      have h2 := outboundRelay_no_cancel w w.remoteReads 0
      cases ho : (outboundRelay w w.remoteReads 0).2 <;> simp [h1, h2]

theorem relay_failure_handling_witness :
    (∃ t, inboundRelay goJson (failingWritesWorld [] []) ([[97]].map Recv.msg ++ Recv.err :: []) 0 0
          = t ++ [Event.clientRead (some Recv.err), Event.cancel]
        ∧ Event.cancel ∉ t)
    ∧ (⟨[], true⟩ : ReadResult).err = true
    ∧ Event.remoteRead bufSize (some ⟨[], true⟩)
        ∈ (outboundRelay (failingWritesWorld [] []) [⟨[97], false⟩, ⟨[], true⟩] 0).1
    ∧ (outboundRelay (failingWritesWorld [] []) [⟨[97], false⟩, ⟨[], true⟩] 0).2 = Exit.returned :=
  ⟨(relay_failure_handling goJson (failingWritesWorld [] []) endOfStreamWorld).1 [[97]] [] 0 0,
    rfl, by decide,
    ((relay_failure_handling goJson (failingWritesWorld [] []) endOfStreamWorld).2.1
      [⟨[97], false⟩, ⟨[], true⟩] 0 ⟨[], true⟩ rfl (by decide)).2⟩

/-! ## Normal closure (C8) -/

/-- Claim C8.  In every run in which a read of the remote byte-stream returns an
error (so the run reached streaming): that read is the last call of the
outbound loop, the handler goroutine's remaining calls are the close with
normal-closure status and then the deferred close, nothing before that read
closes the client connection, the handler returns, and in every global order
of the two goroutines' calls the first close issued on the client connection
carries the normal-closure status. -/
theorem remote_read_error_ends_with_normal_closure (codec : Codec) (w : World)
    (r : ReadResult) (hr : r.err = true)
    (hmem : Event.remoteRead bufSize (some r) ∈ (Handler codec w).main) :
    (∃ pre, (Handler codec w).main
        = pre ++ [Event.remoteRead bufSize (some r),
                  Event.clientClose StatusCode.StatusNormalClosure,
                  Event.clientClose StatusCode.StatusInternalError]
      ∧ closeCodes pre = [])
    ∧ (Handler codec w).exit = Exit.returned
    ∧ (∀ t, Interleave (Handler codec w).main (Handler codec w).inbound t →
        (closeCodes t).head? = some StatusCode.StatusNormalClosure) := by
  rcases Handler_shape codec w with ⟨-, h, -⟩ | ⟨-, A, hA, hAc, hH⟩
  · exact absurd hmem (not_mem_of_any_isRelayEvent h _ rfl)
  · have hAm := not_mem_of_any_isRelayEvent hA (Event.remoteRead bufSize (some r)) rfl
    have hin : Event.remoteRead bufSize (some r) ∈ (outboundRelay w w.remoteReads 0).1 := by
      rw [hH] at hmem
      cases ho : (outboundRelay w w.remoteReads 0).2 <;>
        simpa [ho, hAm] using hmem
    obtain ⟨pre, hpre, hex⟩ := outboundRelay_error_read_last w w.remoteReads 0 r hr hin
    have hpc : closeCodes pre = [] := by
      have := (outboundRelay_no_close w w.remoteReads 0).1
      rw [hpre, closeCodes_append] at this
      exact (List.append_eq_nil.mp this).1
    have hmain : (Handler codec w).main
        = (A ++ Event.spawnInbound :: pre) ++ [Event.remoteRead bufSize (some r),
            Event.clientClose StatusCode.StatusNormalClosure,
            Event.clientClose StatusCode.StatusInternalError] := by
      rw [hH]
      simp [hex, hpre]
    have hpre2 : closeCodes (A ++ Event.spawnInbound :: pre) = [] := by
      simp [closeCodes_append, closeCodes_cons, closeCode, hAc, hpc]
    refine ⟨⟨A ++ Event.spawnInbound :: pre, hmain, hpre2⟩, ?_, ?_⟩
    · rw [hH]; exact hex
    · intro t ht
      have hinb : (Handler codec w).inbound.filterMap closeCode = [] := by
        rw [hH]
        exact (inboundRelay_no_close codec w w.clientReads 0 0).1
      have := interleave_filterMap_left closeCode ht hinb
      unfold closeCodes
      have h2 := hpre2
      unfold closeCodes at h2
      rw [this, hmain, List.filterMap_append, h2]
      rfl

theorem remote_read_error_ends_with_normal_closure_witness :
    (⟨[], true⟩ : ReadResult).err = true
    ∧ Event.remoteRead bufSize (some ⟨[], true⟩) ∈ (Handler goJson endOfStreamWorld).main
    ∧ (Handler goJson endOfStreamWorld).exit = Exit.returned :=
  ⟨rfl, by decide,
    (remote_read_error_ends_with_normal_closure goJson endOfStreamWorld ⟨[], true⟩ rfl
      (by decide)).2.1⟩

/-! ## Opening the shell (C9) -/

/-- Claim C9.  In every run whose handshake is read and parsed with cols = c and
rows = r and whose `Dial` succeeds, the handler calls `Shell(c, r)` and the
calls of `Shell` follow directly.  For every outcome of its calls, `Shell(c, r)`
makes, in this order and stopping at the first one that fails: the session
request, the PTY request with terminal type `xterm-256color`, height r, width
c and modes ECHO = 1, input and output speed 14400, the stdin pipe, the stdout
pipe, and the start of `zsh -l -c 'tmux new -As dev'`.  It returns an error
exactly when its last call failed, then with a nil session and a nil stream;
without an error all five calls were made and session and stream are non-nil. -/
theorem shell_requests_pty_and_starts_tmux (codec : Codec) (w : World) (data : Bytes)
    (im : initMsg) (hacc : w.acceptOk = true) (hi : w.init = some (Recv.msg data))
    (hp : codec.unmarshalInit data = some im)
    (hd : (Dial w.dialEnv im.User im.Host im.Port w.keyPath).2 = true) :
    (Event.shell im.Cols im.Rows :: (Shell w.shellEnv im.Cols im.Rows).1)
        <:+: (Handler codec w).main
    ∧ ∀ (env : ShellEnv) (c r : Int),
        (Shell env c r).1.map Event.call
            = ([Event.newSession true,
                Event.requestPty "xterm-256color" r c
                  [(TermOp.ECHO, 1), (TermOp.TTY_OP_ISPEED, 14400),
                   (TermOp.TTY_OP_OSPEED, 14400)] true,
                Event.stdinPipe true, Event.stdoutPipe true,
                Event.start "zsh -l -c \x27tmux new -As dev\x27" true]).take
                  (Shell env c r).1.length
        ∧ (Shell env c r).1 ≠ []
        ∧ (Shell env c r).1.dropLast.all Event.ok = true
        ∧ ((Shell env c r).2.err = true ↔ (Shell env c r).1.getLast?.map Event.ok = some false)
        ∧ ((Shell env c r).2.err = true →
            (Shell env c r).2.sess = false ∧ (Shell env c r).2.rwc = false)
        ∧ ((Shell env c r).2.err = false →
            (Shell env c r).1.length = 5 ∧ (Shell env c r).2.sess = true
            ∧ (Shell env c r).2.rwc = true) := by
  refine ⟨?_, Shell_steps⟩
  by_cases hs : (Shell w.shellEnv im.Cols im.Rows).2.err = true
  · rw [Handler_shell_failed codec w data im hacc hi hp hd hs]
    exact ⟨Event.accept true :: Event.clientRead (some (Recv.msg data)) ::
      Event.dial im.User im.Host im.Port w.keyPath ::
      (Dial w.dialEnv im.User im.Host im.Port w.keyPath).1,
      [Event.log "shell:", Event.clientClose StatusCode.StatusInternalError], by simp⟩
  · have hs0 : (Shell w.shellEnv im.Cols im.Rows).2.err = false := by simpa using hs
    rw [Handler_streaming codec w data im hacc hi hp hd hs0]
    exact ⟨Event.accept true :: Event.clientRead (some (Recv.msg data)) ::
      Event.dial im.User im.Host im.Port w.keyPath ::
      (Dial w.dialEnv im.User im.Host im.Port w.keyPath).1, _, by simp; rfl⟩

theorem shell_requests_pty_and_starts_tmux_witness :
    (calmWorld (some (Recv.msg scenarioHandshake)) [] []).acceptOk = true
    ∧ goJson.unmarshalInit scenarioHandshake = some ⟨ascii "10.0.0.5", 22, ascii "dev", 80, 24⟩
    ∧ [Event.shell 80 24, Event.newSession true,
        Event.requestPty "xterm-256color" 24 80
          [(TermOp.ECHO, 1), (TermOp.TTY_OP_ISPEED, 14400), (TermOp.TTY_OP_OSPEED, 14400)] true,
        Event.stdinPipe true, Event.stdoutPipe true,
        Event.start "zsh -l -c \x27tmux new -As dev\x27" true]
        <:+: (Handler goJson (calmWorld (some (Recv.msg scenarioHandshake)) [] [])).main
    ∧ (Shell ⟨true, false, true, true, true⟩ 80 24).2.sess = false
    ∧ (Shell ⟨true, false, true, true, true⟩ 80 24).2.rwc = false :=
  ⟨rfl, by decide,
    (shell_requests_pty_and_starts_tmux goJson
      (calmWorld (some (Recv.msg scenarioHandshake)) [] []) scenarioHandshake
      ⟨ascii "10.0.0.5", 22, ascii "dev", 80, 24⟩ rfl rfl (by decide) rfl).1,
    (((shell_requests_pty_and_starts_tmux goJson
      (calmWorld (some (Recv.msg scenarioHandshake)) [] []) scenarioHandshake
      ⟨ascii "10.0.0.5", 22, ascii "dev", 80, 24⟩ rfl rfl (by decide) rfl).2
      ⟨true, false, true, true, true⟩ 80 24).2.2.2.2.1 rfl).1,
    (((shell_requests_pty_and_starts_tmux goJson
      (calmWorld (some (Recv.msg scenarioHandshake)) [] []) scenarioHandshake
      ⟨ascii "10.0.0.5", 22, ascii "dev", 80, 24⟩ rfl rfl (by decide) rfl).2
      ⟨true, false, true, true, true⟩ 80 24).2.2.2.2.1 rfl).2⟩

/-! ## Upload (C10) -/

namespace Filepath

theorem splitOn_append_sep (x : Nat) (a b : List Nat) :
    (a ++ x :: b).splitOn x = a.splitOn x ++ b.splitOn x := by
  induction a with
  | nil => simp [List.splitOn, List.splitOnP_cons]
  | cons y a ih =>
    simp only [List.splitOn] at ih ⊢
    simp only [List.cons_append, List.splitOnP_cons, ih]
    by_cases hy : (y == x) = true
    · simp [hy]
    · simp only [hy]
      cases h : List.splitOnP (fun z => z == x) a with
      | nil => exact absurd h (List.splitOnP_ne_nil _ _)
      | cons e es => simp [List.modifyHead]

theorem splitOn_of_not_mem (x : Nat) (b : List Nat) (h : x ∉ b) : b.splitOn x = [b] := by
  unfold List.splitOn
  apply List.splitOnP_eq_single
  intro y hy hyx
  simp only [beq_iff_eq] at hyx
  exact h (hyx ▸ hy)

theorem not_mem_of_mem_splitOn (x : Nat) (l : List Nat) : ∀ e ∈ l.splitOn x, x ∉ e := by
  induction l with
  | nil => simp [List.splitOn]
  | cons y l ih =>
    simp only [List.splitOn] at ih ⊢
    rw [List.splitOnP_cons]
    by_cases hy : (y == x) = true
    · simp only [hy, if_true]
      intro e he
      rcases List.mem_cons.mp he with h | h
      · simp [h]
      · exact ih e h
    · simp only [hy]
      cases h : List.splitOnP (fun z => z == x) l with
      | nil => exact absurd h (List.splitOnP_ne_nil _ _)
      | cons e0 es =>
        rw [h] at ih
        intro e he
        simp only [List.modifyHead, Bool.false_eq_true, if_false, List.mem_cons] at he
        rcases he with h1 | h1
        · subst h1
          have := ih e0 (List.mem_cons_self _ _)
          simp only [List.mem_cons, not_or]
          refine ⟨?_, this⟩
          intro hxy
          exact hy (by simp [hxy])
        · exact ih e (List.mem_cons_of_mem _ h1)

theorem cleanElements_append (r : Bool) (xs ys acc : List Bytes) :
    cleanElements r (xs ++ ys) acc = cleanElements r ys (cleanElements r xs acc).reverse := by
  induction xs generalizing acc with
  | nil => simp [cleanElements]
  | cons c rest ih =>
    rw [List.cons_append]
    by_cases h1 : (c.isEmpty || c == [46]) = true
    · simp only [cleanElements, h1, if_true]; exact ih acc
    · by_cases h2 : (c == [46, 46]) = true
      · cases acc with
        | nil => cases r <;> simp [cleanElements, h1, h2, ih]
        | cons top acc1 =>
          by_cases h3 : (top == [46, 46]) = true <;> simp [cleanElements, h1, h2, h3, ih]
      · simp [cleanElements, h1, h2, ih]

theorem cleanElements_plain (r : Bool) (c : Bytes) (rest acc : List Bytes) (hc : Plain c) :
    cleanElements r (c :: rest) acc = cleanElements r rest (c :: acc) := by
  obtain ⟨h1, h2, h3, -⟩ := hc
  simp [cleanElements, h1, h2, h3]

theorem cleanElements_plains (r : Bool) (pl acc : List Bytes) (h : ∀ e ∈ pl, Plain e) :
    cleanElements r pl acc = acc.reverse ++ pl := by
  induction pl generalizing acc with
  | nil => simp [cleanElements]
  | cons c rest ih =>
    rw [cleanElements_plain r c rest acc (h c (List.mem_cons_self _ _)),
      ih _ (fun e he => h e (List.mem_cons_of_mem _ he))]
    simp

theorem cleanElements_dotdots (n m : Nat) (rest : List Bytes) :
    cleanElements false (List.replicate n [46, 46] ++ rest) (List.replicate m [46, 46])
      = cleanElements false rest (List.replicate (n + m) [46, 46]) := by
  induction n generalizing m with
  | zero => simp
  | succ n ih =>
    cases m with
    | zero =>
      have h := ih 1
      rw [List.replicate_succ, List.cons_append]
      simp only [List.replicate_succ, List.replicate_zero] at h
      simp [cleanElements, h]
    | succ m =>
      have h := ih (m + 2)
      have e : n + 1 + (m + 1) = n + (m + 2) := by omega
      rw [e, ← h, List.replicate_succ, List.cons_append]
      simp [cleanElements, List.replicate_succ]


theorem cleanElements_stack (r : Bool) (xs acc : List Bytes) (hx : ∀ e ∈ xs, 47 ∉ e)
    (h : StackOk r acc) : StackOk r (cleanElements r xs acc).reverse := by
  induction xs generalizing acc with
  | nil => simpa [cleanElements] using h
  | cons c rest ih =>
    have hrest : ∀ e ∈ rest, 47 ∉ e := fun e he => hx e (List.mem_cons_of_mem _ he)
    have hc47 : 47 ∉ c := hx c (List.mem_cons_self _ _)
    by_cases h1 : (c.isEmpty || c == [46]) = true
    · simp only [cleanElements, h1, if_true]; exact ih acc hrest h
    · by_cases h2 : (c == [46, 46]) = true
      · obtain ⟨n, pl, hacc, hr, hpl⟩ := h
        cases pl with
        | nil =>
          cases n with
          | zero =>
            simp only [List.nil_append, List.replicate_zero] at hacc
            subst hacc
            cases r
            · simp only [cleanElements, h1, h2, if_true, if_false, Bool.false_eq_true]
              refine ih _ hrest ⟨1, [], ?_, by simp, by simp⟩
              simp only [beq_iff_eq] at h2
              simp [h2]
            · simp only [cleanElements, h1, h2, if_true, if_false]
              exact ih _ hrest ⟨0, [], by simp, by simp, by simp⟩
          | succ n =>
            simp only [List.nil_append, List.replicate_succ] at hacc
            subst hacc
            have hrf : r = false := by
              cases r
              · rfl
              · exact absurd (hr rfl) (Nat.succ_ne_zero n)
            simp only [cleanElements, h1, h2, if_true, if_false, beq_self_eq_true]
            refine ih _ hrest ⟨n + 2, [], ?_, by simp [hrf], by simp⟩
            simp only [beq_iff_eq] at h2
            simp [h2, List.replicate_succ]
        | cons top pl1 =>
          simp only [List.cons_append] at hacc
          subst hacc
          have htop := hpl top (List.mem_cons_self _ _)
          have h3 : (top == [46, 46]) = false := by
            simpa using htop.2.2.1
          simp only [cleanElements, h1, h2, h3, if_true, if_false, Bool.false_eq_true]
          exact ih _ hrest ⟨n, pl1, rfl, hr, fun e he => hpl e (List.mem_cons_of_mem _ he)⟩
      · have hplain : Plain c := by
          simp only [Bool.or_eq_true, List.isEmpty_iff, beq_iff_eq, not_or] at h1 h2
          exact ⟨h1.1, h1.2, h2, hc47⟩
        rw [cleanElements_plain r c rest acc hplain]
        obtain ⟨n, pl, hacc, hr, hpl⟩ := h
        refine ih _ hrest ⟨n, c :: pl, by simp [hacc], hr, ?_⟩
        intro e he
        rcases List.mem_cons.mp he with h | h
        · exact h ▸ hplain
        · exact hpl e h


theorem joinSlash_cons_cons (e e1 : Bytes) (es : List Bytes) :
    joinSlash (e :: e1 :: es) = e ++ 47 :: joinSlash (e1 :: es) := by
  simp [joinSlash, List.intercalate, List.intersperse]

theorem joinSlash_append_singleton (E : List Bytes) (name : Bytes) (hE : E ≠ []) :
    joinSlash (E ++ [name]) = joinSlash E ++ 47 :: name := by
  induction E with
  | nil => exact absurd rfl hE
  | cons e es ih =>
    cases es with
    | nil => simp [joinSlash, List.intercalate, List.intersperse]
    | cons e1 es1 =>
      have := ih (by simp)
      rw [List.cons_append, List.cons_append, joinSlash_cons_cons, joinSlash_cons_cons,
        ← List.cons_append, this]
      simp

theorem joinSlash_head (e : Bytes) (es : List Bytes) (he : e ≠ []) :
    (joinSlash (e :: es)).head? = e.head? := by
  cases es with
  | nil => simp [joinSlash, List.intercalate, List.intersperse]
  | cons e1 es1 =>
    rw [joinSlash_cons_cons]
    cases e with
    | nil => exact absurd rfl he
    | cons b bs => rfl

theorem plain_dotdot_not_mem : (47 : Nat) ∉ ([46, 46] : Bytes) := by decide

/-- Cleaning a path whose last element is plain, then appending a plain name
after a slash, gives a path that is already clean. -/
theorem Clean_append_plain (p u name : Bytes) (L : List Bytes) (hp : p ≠ [])
    (hsplit : splitSlash p = L ++ [u]) (hu : Plain u) (hname : Plain name) :
    Clean p ≠ [] ∧ Clean (Clean p ++ 47 :: name) = Clean p ++ 47 :: name := by
  -- the elements of `Clean p`
  have hL : ∀ e ∈ L, 47 ∉ e := fun e he =>
    not_mem_of_mem_splitOn 47 p e (by
      have : e ∈ splitSlash p := by rw [hsplit]; exact List.mem_append_left _ he
      exact this)
  have hshape : ∀ r : Bool, ∃ n PL, cleanElements r (splitSlash p) []
      = List.replicate n [46, 46] ++ PL ∧ (r = true → n = 0) ∧ PL ≠ [] ∧ ∀ e ∈ PL, Plain e := by
    intro r
    obtain ⟨n, pl, hacc, hr, hpl⟩ :=
      cleanElements_stack r L [] hL ⟨0, [], by simp, by simp, by simp⟩
    refine ⟨n, pl.reverse ++ [u], ?_, hr, by simp, ?_⟩
    · rw [hsplit, cleanElements_append, hacc, cleanElements_plain r u [] _ hu]
      simp [cleanElements]
    · intro e he
      rcases List.mem_append.mp he with h | h
      · exact hpl e (List.mem_reverse.mp h)
      · rw [List.mem_singleton.mp h]; exact hu
  have hreclean : ∀ (r : Bool) (n : Nat) (PL : List Bytes), (r = true → n = 0) →
      (∀ e ∈ PL, Plain e) →
      cleanElements r (List.replicate n [46, 46] ++ PL ++ [name]) []
        = List.replicate n [46, 46] ++ PL ++ [name] := by
    intro r n PL hr hPL
    have hPL2 : ∀ e ∈ PL ++ [name], Plain e := by
      intro e he
      rcases List.mem_append.mp he with h | h
      · exact hPL e h
      · rw [List.mem_singleton.mp h]; exact hname
    cases r with
    | true =>
      rw [hr rfl]
      simp only [List.replicate_zero, List.nil_append]
      rw [cleanElements_plains true _ [] hPL2]
      simp
    | false =>
      have := cleanElements_dotdots n 0 (PL ++ [name])
      simp only [List.replicate_zero, Nat.add_zero] at this
      rw [List.append_assoc, this, cleanElements_plains false _ _ hPL2]
      simp
  have hno47 : ∀ (n : Nat) (PL : List Bytes), (∀ e ∈ PL, Plain e) →
      ∀ e ∈ List.replicate n [46, 46] ++ PL, (47 : Nat) ∉ e := by
    intro n PL hPL e he
    rcases List.mem_append.mp he with h | h
    · rw [(List.mem_replicate.mp h).2]; exact plain_dotdot_not_mem
    · exact (hPL e h).2.2.2
  have hname47 : (47 : Nat) ∉ name := hname.2.2.2
  have hpe : p.isEmpty = false := by
    cases p with
    | nil => exact absurd rfl hp
    | cons a b => rfl
  by_cases hr : (p.head? == some 47) = true
  · -- rooted
    obtain ⟨n, PL, hE, hn, hne, hPL⟩ := hshape true
    have hn0 := hn rfl
    subst hn0
    simp only [List.replicate_zero, List.nil_append] at hE
    have hC : Clean p = 47 :: joinSlash PL := by
      simp [Clean, hpe, hr, hE]
    have hsp : splitSlash (47 :: joinSlash PL ++ 47 :: name) = [] :: PL ++ [name] := by
      have h1 := splitOn_append_sep 47 (47 :: joinSlash PL) name
      have h2 := splitOn_append_sep 47 [] (joinSlash PL)
      have h3 := List.splitOn_intercalate PL 47 (fun l hl => (hPL l hl).2.2.2) hne
      simp only [List.nil_append] at h2
      unfold splitSlash
      unfold joinSlash at h1 h2 ⊢
      rw [h1, h2, h3, splitOn_of_not_mem 47 name hname47]
      simp
    refine ⟨by rw [hC]; simp, ?_⟩
    rw [hC]
    have hcl : cleanElements true ([] :: PL ++ [name]) [] = PL ++ [name] := by
      have := hreclean true 0 PL (fun _ => rfl) hPL
      simp only [List.replicate_zero, List.nil_append] at this
      rw [List.cons_append]
      simp only [cleanElements, List.isEmpty_nil, Bool.true_or, if_true]
      exact this
    have hq : Clean (47 :: joinSlash PL ++ 47 :: name) = 47 :: joinSlash (PL ++ [name]) := by
      have e1 : (47 :: joinSlash PL ++ 47 :: name).isEmpty = false := rfl
      have e2 : ((47 :: joinSlash PL ++ 47 :: name).head? == some 47) = true := rfl
      unfold Clean
      rw [e1, e2, hsp, hcl]
      simp
    rw [hq, joinSlash_append_singleton PL name hne]
    simp
  · -- relative
    have hr0 : (p.head? == some 47) = false := by simpa using hr
    obtain ⟨n, PL, hE, -, hne, hPL⟩ := hshape false
    have hEne : List.replicate n [46, 46] ++ PL ≠ [] := by simp [hne]
    have hEe : (List.replicate n [46, 46] ++ PL).isEmpty = false := by
      cases h : List.replicate n [46, 46] ++ PL with
      | nil => exact absurd h hEne
      | cons a b => rfl
    have hC : Clean p = joinSlash (List.replicate n [46, 46] ++ PL) := by
      simp only [Clean, hpe, hr0, hE, hEe]
      simp
    -- the first element is not empty and has no slash
    obtain ⟨e0, es, hes⟩ : ∃ e0 es, List.replicate n [46, 46] ++ PL = e0 :: es := by
      cases h : List.replicate n [46, 46] ++ PL with
      | nil => exact absurd h hEne
      | cons a b => exact ⟨a, b, rfl⟩
    have he0 : e0 ≠ [] ∧ (47 : Nat) ∉ e0 := by
      have hmem : e0 ∈ List.replicate n [46, 46] ++ PL := by rw [hes]; exact List.mem_cons_self _ _
      refine ⟨?_, hno47 n PL hPL e0 hmem⟩
      rcases List.mem_append.mp hmem with h | h
      · rw [(List.mem_replicate.mp h).2]; simp
      · exact (hPL e0 h).1
    have hhead : (joinSlash (List.replicate n [46, 46] ++ PL)).head? ≠ some 47 := by
      rw [hes, joinSlash_head e0 es he0.1]
      cases e0 with
      | nil => exact absurd rfl he0.1
      | cons b bs =>
        intro h
        simp only [List.head?_cons, Option.some.injEq] at h
        exact he0.2 (by simp [h])
    have hjne : joinSlash (List.replicate n [46, 46] ++ PL) ≠ [] := by
      intro h
      have := joinSlash_head e0 es he0.1
      rw [← hes, h] at this
      cases e0 with
      | nil => exact absurd rfl he0.1
      | cons b bs => simp at this
    have hsp : splitSlash (joinSlash (List.replicate n [46, 46] ++ PL) ++ 47 :: name)
        = List.replicate n [46, 46] ++ PL ++ [name] := by
      have h1 := splitOn_append_sep 47 (joinSlash (List.replicate n [46, 46] ++ PL)) name
      have h3 := List.splitOn_intercalate (List.replicate n [46, 46] ++ PL) 47
        (hno47 n PL hPL) hEne
      unfold splitSlash
      unfold joinSlash at h1 ⊢
      rw [h1, h3, splitOn_of_not_mem 47 name hname47]
    refine ⟨by rw [hC]; exact hjne, ?_⟩
    rw [hC]
    have hcl := hreclean false n PL (by simp) hPL
    have hqe : (joinSlash (List.replicate n [46, 46] ++ PL) ++ 47 :: name).isEmpty = false := by
      cases h : joinSlash (List.replicate n [46, 46] ++ PL) with
      | nil => rfl
      | cons a b => rfl
    have hqh : ((joinSlash (List.replicate n [46, 46] ++ PL) ++ 47 :: name).head? == some 47)
        = false := by
      cases h : joinSlash (List.replicate n [46, 46] ++ PL) with
      | nil => exact absurd h hjne
      | cons a b =>
        rw [h] at hhead
        simpa using hhead
    have hre : (List.replicate n [46, 46] ++ PL ++ [name]).isEmpty = false := by
      cases h : List.replicate n [46, 46] ++ PL ++ [name] with
      | nil => simp at h
      | cons a b => rfl
    have hq : Clean (joinSlash (List.replicate n [46, 46] ++ PL) ++ 47 :: name)
        = joinSlash (List.replicate n [46, 46] ++ PL ++ [name]) := by
      simp only [Clean, hqe, hqh, hsp, hcl, hre]
      simp
    rw [hq, joinSlash_append_singleton _ name hEne]


theorem lastElement_no_slash (x : Bytes) : (47 : Nat) ∉ lastElement x := by
  unfold lastElement
  intro h
  have h1 := List.mem_reverse.mp h
  have h2 := List.mem_takeWhile_imp h1
  simp at h2

theorem Base_plain (f : Bytes) (h1 : Base f ≠ [46]) (h2 : Base f ≠ [46, 46])
    (h3 : Base f ≠ [47]) : Plain (Base f) := by
  unfold Base at h1 h2 h3 ⊢
  by_cases ha : f.isEmpty = true
  · simp [ha] at h1
  · by_cases hb : (lastElement (stripTrailingSlashes f)).isEmpty = true
    · simp [ha, hb] at h3
    · simp only [ha, hb, if_false, Bool.false_eq_true] at h1 h2 h3 ⊢
      refine ⟨?_, h1, h2, lastElement_no_slash _⟩
      intro h
      rw [h] at hb
      exact hb rfl

theorem uploads_plain : Plain (ascii "uploads") := by
  unfold Plain
  decide

/-- For every home directory and every file name whose base name is none of
`.`, `..` and `/`: the base name is not empty and has no slash, and the path
handed to `os.Create` is the upload directory, a slash, and the base name. -/
theorem upload_destination_is_direct_child (home filename : Bytes)
    (h1 : Base filename ≠ ascii ".") (h2 : Base filename ≠ ascii "..")
    (h3 : Base filename ≠ ascii "/") :
    Join (Join home (ascii "uploads")) (Base filename)
        = Join home (ascii "uploads") ++ 47 :: Base filename
    ∧ Base filename ≠ [] ∧ (47 : Nat) ∉ Base filename := by
  have hname : Plain (Base filename) := Base_plain filename h1 h2 h3
  have hu := uploads_plain
  have key : ∀ p L, p ≠ [] → splitSlash p = L ++ [ascii "uploads"] →
      Join (Clean p) (Base filename) = Clean p ++ 47 :: Base filename := by
    intro p L hp hs
    obtain ⟨hne, hcl⟩ := Clean_append_plain p (ascii "uploads") (Base filename) L hp hs hu hname
    have he : (Clean p).isEmpty = false := by
      cases h : Clean p with
      | nil => exact absurd h hne
      | cons a b => rfl
    simp [Join, he, hcl]
  refine ⟨?_, hname.1, hname.2.2.2⟩
  cases home with
  | nil =>
    have hj : Join [] (ascii "uploads") = Clean (ascii "uploads") := by decide
    rw [hj]
    exact key (ascii "uploads") [] (by decide) (by decide)
  | cons a t =>
    have hj : Join (a :: t) (ascii "uploads") = Clean ((a :: t) ++ 47 :: ascii "uploads") := by
      simp [Join]
    rw [hj]
    refine key _ (List.splitOn 47 (a :: t)) (by simp) ?_
    unfold splitSlash
    rw [splitOn_append_sep, splitOn_of_not_mem 47 (ascii "uploads") hu.2.2.2]

end Filepath

theorem upload_rejects_other_methods (env : Upload.Env) (r : Upload.Request)
    (h : r.method ≠ ascii "POST") :
    Upload.Handler env r = [Upload.Event.writeHeader 405] := by
  simp [Upload.Handler, h]

theorem upload_requires_form_file (env : Upload.Env) (r : Upload.Request)
    (h : r.method = ascii "POST") (hf : r.formFile = none) :
    Upload.Handler env r
      = [Upload.Event.parseMultipartForm 52428800, Upload.Event.writeHeader 400] := by
  simp [Upload.Handler, h, hf]

theorem upload_path_of_traversal_name :
    Filepath.Join (Filepath.Join (ascii "/home/dev") (ascii "uploads"))
        (Filepath.Base (ascii "../../etc/passwd"))
      = ascii "/home/dev/uploads/passwd" := by
  decide

/-- For a POST request with a form file whose base name is none of `.`, `..`
and `/`, the file is created directly in the upload directory, and after a
successful creation the acknowledgment names `~/uploads/` and the base name. -/
theorem upload_confines_other_names (env : Upload.Env) (filename content : Bytes)
    (h1 : Filepath.Base filename ≠ ascii ".") (h2 : Filepath.Base filename ≠ ascii "..")
    (h3 : Filepath.Base filename ≠ ascii "/") :
    Upload.Event.create
        (Filepath.Join env.home (ascii "uploads") ++ 47 :: Filepath.Base filename) env.createOk
      ∈ Upload.Handler env ⟨ascii "POST", some (filename, content)⟩
    ∧ (env.createOk = true →
        Upload.Event.encode true (ascii "~/uploads/" ++ Filepath.Base filename)
          ∈ Upload.Handler env ⟨ascii "POST", some (filename, content)⟩) := by
  have h := (Filepath.upload_destination_is_direct_child env.home filename h1 h2 h3).1
  have h4 : (ascii "POST" != ascii "POST") = false := by decide
  cases hc : env.createOk <;> simp [Upload.Handler, h4, hc, h]

/-- Claim C10, evaluated at the file name `..` with home directory `/home/dev`.
The upload directory is `/home/dev/uploads`, `Base` leaves `..` unchanged, and
the path handed to `os.Create` is `/home/dev`: the parent of the upload
directory, not a direct child of it.  When the creation succeeds the
acknowledgment reports `~/uploads/..`. -/
theorem upload_dotdot_name_leaves_upload_directory (ok : Bool) (content : Bytes) :
    Filepath.Join (ascii "/home/dev") (ascii "uploads") = ascii "/home/dev/uploads"
    ∧ Filepath.Base (ascii "..") = ascii ".."
    ∧ Upload.Event.create (ascii "/home/dev") ok
        ∈ Upload.Handler ⟨ascii "/home/dev", ok⟩ ⟨ascii "POST", some (ascii "..", content)⟩
    ∧ Upload.Handler ⟨ascii "/home/dev", true⟩ ⟨ascii "POST", some (ascii "..", content)⟩
        = [Upload.Event.parseMultipartForm 52428800,
           Upload.Event.mkdirAll (ascii "/home/dev/uploads") 448,
           Upload.Event.create (ascii "/home/dev") true,
           Upload.Event.copy (ascii "/home/dev") content,
           Upload.Event.encode true (ascii "~/uploads/.."),
           Upload.Event.closeDst, Upload.Event.closeForm] := by
  have h1 : Filepath.Join (ascii "/home/dev") (ascii "uploads") = ascii "/home/dev/uploads" := by
    decide
  have h2 : Filepath.Base (ascii "..") = ascii ".." := by decide
  have h3 : Filepath.Join (ascii "/home/dev/uploads") (ascii "..") = ascii "/home/dev" := by
    decide
  have h4 : (ascii "POST" != ascii "POST") = false := by decide
  have h5 : ascii "~/uploads/" ++ ascii ".." = ascii "~/uploads/.." := by decide
  refine ⟨h1, h2, ?_, ?_⟩
  · cases ok <;> simp [Upload.Handler, h1, h2, h3, h4]
  · simp [Upload.Handler, h1, h2, h3, h4, h5]

end WebTerminal
